import Mathlib

/-!
Reading list backend: the item / tag persistence layer.

A shallow embedding of `src/backend/items.go` (and the `GET /items/{id}` handler of
`src/backend/main.go`).

* The SQLite database is a record of three tables (`items`, `tags`, `items_tags`) and the
  `sqlite_sequence` counter of the `AUTOINCREMENT` column `tags.id`.  Every SQL statement of
  the source is one function on that record and enforces the primary keys and the `UNIQUE`
  constraint declared in `initDB`.  The connection is opened by
  `sql.Open("sqlite3", "./database.db")` without the `foreign_keys` pragma, so the
  `FOREIGN KEY` clauses of the schema are not enforced.
* A transaction is the database the connection sees together with the image to restore on
  rollback.  The engine can roll a transaction back on its own when a call fails; the
  statements that the code issues afterwards on the same `*sql.Tx` run in autocommit mode.
* Every call into the driver (`Begin`, `Exec`, `Query`, `QueryRow`, `Prepare`, `Commit` and
  every `rows.Next()`) consumes one entry of a fault schedule: `ok`, `fail` (the call fails,
  the transaction stays open) or `abort` (the call fails and the engine rolls the
  transaction back).  `Exec`, `Query`, `QueryRow(...).Scan`, `Prepare`, `Begin` and `Commit`
  return the failure as an error; a failing `rows.Next()` only ends the loop, because the
  source never reads `rows.Err()`.
* `CURRENT_TIMESTAMP`, `uuid.NewString()` and the iteration order of a Go map are inputs.
* Go slices are `Option (List α)`: `none` is the nil slice.
* The association rows of an item are read through the primary-key index
  `(item_id, tag_id)`, ascending by `tag_id`; `ORDER BY i.id` is a stable sort by the bytes
  of the id; a full scan of `tags` follows the table.
* Row ids are unbounded integers (the engine's `SQLITE_FULL` at 2^63 - 1 is a failure of
  the schedule).
-/

namespace ReadingList

/-! ## Go values -/

/-- Go `type Tag struct`. -/
structure Tag where
  ID : Int
  Name : String
  deriving DecidableEq

/-- Go `type Item struct`; `Tags` is a slice (`none` is nil). -/
structure Item where
  ID : String
  Title : String
  URL : String
  Starred : Bool
  CreatedAt : String
  UpdatedAt : String
  Tags : Option (List Tag)
  deriving DecidableEq

/-- Go `append(s, x)` on a slice that may be nil. -/
def sliceAppend {α : Type} (s : Option (List α)) (x : α) : Option (List α) :=
  match s with
  | none => some [x]
  | some l => some (l ++ [x])

/-! ## The database -/

/-- A row of table `items`. -/
structure ItemRow where
  id : String
  title : String
  url : String
  starred : Bool
  created_at : String
  updated_at : String
  deriving DecidableEq

/-- A row of table `tags`. -/
structure TagRow where
  id : Int
  name : String
  deriving DecidableEq

/-- A row of table `items_tags`. -/
structure ItemTagRow where
  item_id : String
  tag_id : Int
  deriving DecidableEq

/-- The database state: the three tables in row order and the `sqlite_sequence` value of
`tags`. -/
structure DB where
  items : List ItemRow
  tags : List TagRow
  items_tags : List ItemTagRow
  tags_seq : Int
  deriving DecidableEq

/-- Errors returned by the database layer: an engine failure, a violated constraint, or
`COMMIT` without an open transaction. -/
inductive DBError where
  | storage
  | primaryKey
  | unique
  | noTransaction
  deriving DecidableEq

/-- What the engine does with one call: it succeeds, it fails and leaves the transaction
open, or it fails and rolls the open transaction back. -/
inductive Fault where
  | ok
  | fail
  | abort
  deriving DecidableEq

/-- The connection behind a `*sql.Tx`: the database it sees, the image to restore on
rollback (`none` when no transaction is open on the engine, so that statements
autocommit), and the outcomes the engine will give to the coming calls. -/
structure TxState where
  db : DB
  snapshot : Option DB
  faults : List Fault
  deriving DecidableEq

/-- The outcome of the next call and the rest of the schedule; an empty schedule means no
more failures. -/
def tick (faults : List Fault) : Fault × List Fault :=
  match faults with
  | [] => (.ok, [])
  | f :: rest => (f, rest)

/-- SQL `ROLLBACK` (Go `tx.Rollback()`, deferred in every mutating function): the stored
database afterwards.  Without an open transaction the statement fails and changes
nothing. -/
def Rollback (tx : TxState) : DB :=
  match tx.snapshot with
  | some image => image
  | none => tx.db

/-- The connection after a call that failed with outcome `f`. -/
def afterFault (tx : TxState) (f : Fault) (rest : List Fault) : TxState :=
  match f with
  | .abort => { db := Rollback tx, snapshot := none, faults := rest }
  | _ => { db := tx.db, snapshot := tx.snapshot, faults := rest }

/-- Go `db.Begin()`. -/
def Begin (db : DB) (faults : List Fault) : Except DBError TxState :=
  match tick faults with
  | (.ok, rest) => .ok { db := db, snapshot := some db, faults := rest }
  | _ => .error .storage

/-- Go `tx.Commit()`: the returned error and the stored database afterwards.  A failing
`COMMIT` is followed by the driver's `ROLLBACK`; without an open transaction `COMMIT`
fails and what was autocommitted stays. -/
def Commit (tx : TxState) : Option DBError × DB :=
  match tick tx.faults with
  | (.ok, _) =>
    match tx.snapshot with
    | some _ => (none, tx.db)
    | none => (some .noTransaction, tx.db)
  | _ => (some .storage, Rollback tx)

/-- A statement run through `tx.Exec` (or `stmt.Exec`). -/
def txExec (tx : TxState) (stmt : DB → Except DBError DB) : Option DBError × TxState :=
  match tick tx.faults with
  | (.ok, rest) =>
    match stmt tx.db with
    | .error e => (some e, { db := tx.db, snapshot := tx.snapshot, faults := rest })
    | .ok db => (none, { db := db, snapshot := tx.snapshot, faults := rest })
  | (f, rest) => (some .storage, afterFault tx f rest)

/-- A query run through `QueryRow(...).Scan` (or a `tx.Prepare`): a failure of the query
or of its step is returned. -/
def txQueryRow {α : Type} (tx : TxState) (q : DB → α) : Except DBError α × TxState :=
  match tick tx.faults with
  | (.ok, rest) => (.ok (q tx.db), { db := tx.db, snapshot := tx.snapshot, faults := rest })
  | (f, rest) => (.error .storage, afterFault tx f rest)

/-- The loop `for rows.Next() { ... }` over the rows of a query: one engine step per call
of `Next`, the last one reporting the end.  A failing step ends the loop like the end of
the rows does.  Gives the rows delivered, whether a failing step rolled the transaction
back, and the rest of the schedule. -/
def stepRows {α : Type} : List α → List Fault → List α × Bool × List Fault
  | rows, [] => (rows, false, [])
  | [], f :: rest => ([], decide (f = Fault.abort), rest)
  | r :: rs, f :: rest =>
    match f with
    | .ok => (r :: (stepRows rs rest).1, (stepRows rs rest).2.1, (stepRows rs rest).2.2)
    | .fail => ([], false, rest)
    | .abort => ([], true, rest)

/-- A query run through `tx.Query` whose rows are read by a `rows.Next()` loop that never
checks `rows.Err()`: a failure of `Query` is returned, a failing step is not. -/
def txQueryRows {α : Type} (tx : TxState) (q : DB → List α) :
    Except DBError (List α) × TxState :=
  match tick tx.faults with
  | (.ok, rest) =>
    ((.ok (stepRows (q tx.db) rest).1),
      if (stepRows (q tx.db) rest).2.1 = true then
        { db := Rollback tx, snapshot := none, faults := (stepRows (q tx.db) rest).2.2 }
      else
        { db := tx.db, snapshot := tx.snapshot, faults := (stepRows (q tx.db) rest).2.2 })
  | (f, rest) => (.error .storage, afterFault tx f rest)

/-! ## SQL statements of the source -/

/-- The rowid an `AUTOINCREMENT` insert into `tags` assigns: one more than the largest id
the table holds or ever held. -/
def nextTagID (db : DB) : Int :=
  max db.tags_seq (db.tags.foldl (fun m t => max m t.id) 0) + 1

/-- SQL `SELECT id FROM tags WHERE name = ?`, first row. -/
def selectTagIDByName (tagName : String) (db : DB) : Option Int :=
  (db.tags.find? (fun t => decide (t.name = tagName))).map (fun t => t.id)

/-- SQL `INSERT INTO tags (name) VALUES (?)`; gives `LastInsertId` and the new database. -/
def insertTag (tagName : String) (db : DB) : Except DBError (Int × DB) :=
  if ∃ t ∈ db.tags, t.name = tagName then .error .unique
  else
    .ok (nextTagID db,
      { db with tags := db.tags ++ [{ id := nextTagID db, name := tagName }],
                tags_seq := nextTagID db })

/-- SQL `INSERT INTO items (id, title, url, starred, created_at, updated_at)
VALUES (?, ?, ?, ?, CURRENT_TIMESTAMP, CURRENT_TIMESTAMP)`. -/
def insertItem (now itemID title url : String) (starred : Bool) (db : DB) :
    Except DBError DB :=
  if ∃ r ∈ db.items, r.id = itemID then .error .primaryKey
  else
    .ok { db with items := db.items ++
      [{ id := itemID, title := title, url := url, starred := starred,
         created_at := now, updated_at := now }] }

/-- SQL `INSERT INTO items_tags (item_id, tag_id) VALUES (?, ?)`. -/
def insertItemTag (itemID : String) (tagID : Int) (db : DB) : Except DBError DB :=
  if { item_id := itemID, tag_id := tagID } ∈ db.items_tags then .error .primaryKey
  else .ok { db with items_tags := db.items_tags ++ [{ item_id := itemID, tag_id := tagID }] }

/-- SQL `DELETE FROM items_tags WHERE item_id = ? AND tag_id = ?`. -/
def deleteItemTag (itemID : String) (tagID : Int) (db : DB) : Except DBError DB :=
  .ok { db with items_tags :=
    db.items_tags.filter (fun r => ¬ (r.item_id = itemID ∧ r.tag_id = tagID)) }

/-- SQL `SELECT COUNT(*) FROM items_tags WHERE tag_id = ?`. -/
def countItemTags (tagID : Int) (db : DB) : Nat :=
  (db.items_tags.filter (fun r => decide (r.tag_id = tagID))).length

/-- SQL `DELETE FROM tags WHERE id = ?`. -/
def deleteTag (tagID : Int) (db : DB) : Except DBError DB :=
  .ok { db with tags := db.tags.filter (fun t => ¬ t.id = tagID) }

/-- The association rows of one item as the primary-key index `(item_id, tag_id)` lists
them: ascending by `tag_id`. -/
def itemTagsOf (itemID : String) (db : DB) : List ItemTagRow :=
  (db.items_tags.filter (fun r => decide (r.item_id = itemID))).insertionSort
    (fun a b => a.tag_id ≤ b.tag_id)

/-- SQL `SELECT tag_id FROM items_tags WHERE item_id = ?`. -/
def selectTagIDs (itemID : String) (db : DB) : List Int :=
  (itemTagsOf itemID db).map (fun r => r.tag_id)

/-- One entry of the `SET` clause that `updateItem` assembles. -/
inductive SetClause where
  | title (v : String)
  | url (v : String)
  | starred (v : Bool)
  | updatedAtNow
  deriving DecidableEq

/-- The effect of one `SET` entry on a row. -/
def applySet (now : String) (r : ItemRow) (c : SetClause) : ItemRow :=
  match c with
  | .title v => { r with title := v }
  | .url v => { r with url := v }
  | .starred v => { r with starred := v }
  | .updatedAtNow => { r with updated_at := now }

/-- SQL `UPDATE items SET ... WHERE id = ?`. -/
def updateItems (now : String) (set : List SetClause) (itemID : String) (db : DB) :
    Except DBError DB :=
  .ok { db with items :=
    db.items.map (fun r => if r.id = itemID then set.foldl (applySet now) r else r) }

/-! ## Tag registry -/

/-- Go `createOrGetTagByName(conn, tagName)`. -/
def createOrGetTagByName (tx : TxState) (tagName : String) : Except DBError Int × TxState :=
  match txQueryRow tx (selectTagIDByName tagName) with
  | (.error e, tx) => (.error e, tx)
  | (.ok (some tagID), tx) => (.ok tagID, tx)
  | (.ok none, tx) =>
    match tick tx.faults with
    | (.ok, rest) =>
      match insertTag tagName tx.db with
      | .error e => (.error e, { db := tx.db, snapshot := tx.snapshot, faults := rest })
      | .ok (lastID, db) => (.ok lastID, { db := db, snapshot := tx.snapshot, faults := rest })
    | (f, rest) => (.error .storage, afterFault tx f rest)

/-! ## Single tag operations -/

/-- Go `tagItemTxn(tx, itemID, tagName)`. -/
def tagItemTxn (tx : TxState) (itemID tagName : String) : Option DBError × TxState :=
  match createOrGetTagByName tx tagName with
  | (.error e, tx) => (some e, tx)
  | (.ok tagID, tx) => txExec tx (insertItemTag itemID tagID)

/-- Go `tagItem(db, itemID, tagName)`: the returned error (`none` is nil) and the stored
database afterwards. -/
def tagItem (db : DB) (faults : List Fault) (itemID tagName : String) : Option DBError × DB :=
  match Begin db faults with
  | .error e => (some e, db)
  | .ok tx =>
    match tagItemTxn tx itemID tagName with
    | (some e, tx) => (some e, Rollback tx)
    | (none, tx) => Commit tx

/-- Go `untagItemTxn(tx, itemID, tagID)`. -/
def untagItemTxn (tx : TxState) (itemID : String) (tagID : Int) : Option DBError × TxState :=
  match txExec tx (deleteItemTag itemID tagID) with
  | (some e, tx) => (some e, tx)
  | (none, tx) =>
    match txQueryRow tx (countItemTags tagID) with
    | (.error e, tx) => (some e, tx)
    | (.ok count, tx) =>
      if count = 0 then txExec tx (deleteTag tagID) else (none, tx)

/-- Go `untagItem(db, itemID, tagID)`. -/
def untagItem (db : DB) (faults : List Fault) (itemID : String) (tagID : Int) :
    Option DBError × DB :=
  match Begin db faults with
  | .error e => (some e, db)
  | .ok tx =>
    match untagItemTxn tx itemID tagID with
    | (some e, tx) => (some e, Rollback tx)
    | (none, tx) => Commit tx

/-! ## createItem -/

/-- The loop `for _, tagName := range tagNames` of `createItem`. -/
def createItemTags (itemID : String) : List String → TxState → Option DBError × TxState
  | [], tx => (none, tx)
  | tagName :: rest, tx =>
    match createOrGetTagByName tx tagName with
    | (.error e, tx) => (some e, tx)
    | (.ok tagID, tx) =>
      match txExec tx (insertItemTag itemID tagID) with
      | (some e, tx) => (some e, tx)
      | (none, tx) => createItemTags itemID rest tx

/-- Go `createItem(db, title, url, tagNames)`; `newID` is the value of `uuid.NewString()`
and `now` the value of `CURRENT_TIMESTAMP`. -/
def createItem (db : DB) (faults : List Fault) (now newID : String) (title url : String)
    (tagNames : List String) : Option DBError × DB :=
  match Begin db faults with
  | .error e => (some e, db)
  | .ok tx =>
    match txExec tx (insertItem now newID title url false) with
    | (some e, tx) => (some e, Rollback tx)
    | (none, tx) =>
      -- tx.Prepare("INSERT INTO items_tags ...")
      match txQueryRow tx (fun _ => ()) with
      | (.error e, tx) => (some e, Rollback tx)
      | (.ok _, tx) =>
        match createItemTags newID tagNames tx with
        | (some e, tx) => (some e, Rollback tx)
        | (none, tx) => Commit tx

/-! ## updateItem -/

/-- The `set` list that `updateItem` builds from its optional arguments. -/
def buildSet (title url : Option String) (starred : Option Bool) : List SetClause :=
  (match title with | some v => [SetClause.title v] | none => []) ++
  (match url with | some v => [SetClause.url v] | none => []) ++
  (match starred with | some v => [SetClause.starred v] | none => [])

/-- The loop of `updateItem` that resolves `tagNames` into `newTagIDs`. -/
def resolveTagNames : List String → TxState → Except DBError (List Int) × TxState
  | [], tx => (.ok [], tx)
  | tagName :: rest, tx =>
    match createOrGetTagByName tx tagName with
    | (.error e, tx) => (.error e, tx)
    | (.ok newTagID, tx) =>
      match resolveTagNames rest tx with
      | (.error e, tx) => (.error e, tx)
      | (.ok ids, tx) => (.ok (newTagID :: ids), tx)

/-- The loop of `updateItem` over `existingTagIDs` that deletes the associations whose tag
is not in `newTagIDs`. -/
def removeStale (itemID : String) (newTagIDs : List Int) :
    List Int → TxState → Option DBError × TxState
  | [], tx => (none, tx)
  | tagID :: rest, tx =>
    if tagID ∈ newTagIDs then removeStale itemID newTagIDs rest tx
    else
      match txExec tx (deleteItemTag itemID tagID) with
      | (some e, tx) => (some e, tx)
      | (none, tx) => removeStale itemID newTagIDs rest tx

/-- The loop of `updateItem` over `newTagIDs` that inserts the associations whose tag is
not in `existingTagIDs`. -/
def addMissing (itemID : String) (existingTagIDs : List Int) :
    List Int → TxState → Option DBError × TxState
  | [], tx => (none, tx)
  | tagID :: rest, tx =>
    if tagID ∈ existingTagIDs then addMissing itemID existingTagIDs rest tx
    else
      match txExec tx (insertItemTag itemID tagID) with
      | (some e, tx) => (some e, tx)
      | (none, tx) => addMissing itemID existingTagIDs rest tx

/-- The statements of `updateItem` between the `len(set) == 0` test and `tx.Commit()`. -/
def updateItemTxn (tx : TxState) (now itemID : String) (set : List SetClause)
    (tagNames : List String) : Option DBError × TxState :=
  match txExec tx (updateItems now (set ++ [SetClause.updatedAtNow]) itemID) with
  | (some e, tx) => (some e, tx)
  | (none, tx) =>
    match txQueryRows tx (selectTagIDs itemID) with
    | (.error e, tx) => (some e, tx)
    | (.ok existingTagIDs, tx) =>
      match resolveTagNames tagNames tx with
      | (.error e, tx) => (some e, tx)
      | (.ok newTagIDs, tx) =>
        match removeStale itemID newTagIDs existingTagIDs tx with
        | (some e, tx) => (some e, tx)
        | (none, tx) => addMissing itemID existingTagIDs newTagIDs tx

/-- Go `updateItem(db, itemID, title, url, starred, tagNames)`; a nil pointer is `none`. -/
def updateItem (db : DB) (faults : List Fault) (now itemID : String)
    (title url : Option String) (starred : Option Bool) (tagNames : List String) :
    Option DBError × DB :=
  match Begin db faults with
  | .error e => (some e, db)
  | .ok tx =>
    if (buildSet title url starred).length = 0 then (none, Rollback tx)
    else
      match updateItemTxn tx now itemID (buildSet title url starred) tagNames with
      | (some e, tx) => (some e, Rollback tx)
      | (none, tx) => Commit tx

/-! ## Read paths -/

/-- A query run through `conn.Query` on the database handle, read by a `rows.Next()` loop
that never checks `rows.Err()`: the rows the loop delivers. -/
def queryRows {α : Type} (faults : List Fault) (rows : List α) : Except DBError (List α) :=
  match tick faults with
  | (.ok, rest) => .ok (stepRows rows rest).1
  | _ => .error .storage

/-- Go `getTags(db)`. -/
def getTags (db : DB) (faults : List Fault) : Except DBError (Option (List Tag)) :=
  match queryRows faults db.tags with
  | .error e => .error e
  | .ok rows =>
    .ok (rows.foldl (fun tags t => sliceAppend tags { ID := t.id, Name := t.name }) none)

/-- A row of the join `items LEFT JOIN items_tags LEFT JOIN tags`: the six item columns
and the nullable `tag_id`, `tag_name`. -/
structure JoinRow where
  item : ItemRow
  tag_id : Option Int
  tag_name : Option String
  deriving DecidableEq

/-- The rows `(i, it) LEFT JOIN tags t ON it.tag_id = t.id` for one association. -/
def joinTags (db : DB) (i : ItemRow) (it : ItemTagRow) : List JoinRow :=
  if db.tags.filter (fun t => decide (it.tag_id = t.id)) = [] then
    [{ item := i, tag_id := none, tag_name := none }]
  else
    (db.tags.filter (fun t => decide (it.tag_id = t.id))).map
      (fun t => { item := i, tag_id := some t.id, tag_name := some t.name })

/-- The rows of the double left join for one item row; its association rows come from the
primary-key index, ascending by `tag_id`. -/
def joinItem (db : DB) (i : ItemRow) : List JoinRow :=
  if itemTagsOf i.id db = [] then
    [{ item := i, tag_id := none, tag_name := none }]
  else
    (itemTagsOf i.id db).flatMap (joinTags db i)

/-- The `Item` literal built from the first row of an item. -/
def newItem (row : JoinRow) : Item :=
  { ID := row.item.id, Title := row.item.title, URL := row.item.url,
    Starred := row.item.starred, CreatedAt := row.item.created_at,
    UpdatedAt := row.item.updated_at, Tags := some [] }

/-- The body of the `rows.Next()` loop of `getItemByID`. -/
def scanItemRow (item : Option Item) (row : JoinRow) : Option Item :=
  let item : Item := match item with
    | none => newItem row
    | some it => it
  match row.tag_id, row.tag_name with
  | some tagID, some tagName =>
    some { item with Tags := sliceAppend item.Tags { ID := tagID, Name := tagName } }
  | _, _ => some item

/-- The rows of the query of `getItemByID`. -/
def queryItemByID (db : DB) (itemID : String) : List JoinRow :=
  (db.items.filter (fun i => decide (i.id = itemID))).flatMap (joinItem db)

/-- Go `getItemByID(conn, itemID)`; `none` is the nil pointer. -/
def getItemByID (db : DB) (faults : List Fault) (itemID : String) :
    Except DBError (Option Item) :=
  match queryRows faults (queryItemByID db itemID) with
  | .error e => .error e
  | .ok rows => .ok (rows.foldl scanItemRow none)

/-- The `GET /items/{id}` handler of `main.go`: the HTTP status and the encoded item. -/
def handleGetItem (db : DB) (faults : List Fault) (id : String) : Nat × Option Item :=
  match getItemByID db faults id with
  | .error _ => (500, none)
  | .ok none => (404, none)
  | .ok (some item) => (200, some item)

/-- Byte order of two texts (SQLite's default collation), on their characters. -/
def textLe : List Char → List Char → Bool
  | [], _ => true
  | _ :: _, [] => false
  | a :: as, b :: bs =>
    if a.toNat < b.toNat then true
    else if b.toNat < a.toNat then false
    else textLe as bs

/-- SQL `ORDER BY i.id` on joined rows. -/
def orderByID (rows : List JoinRow) : List JoinRow :=
  rows.insertionSort (fun a b => textLe a.item.id.data b.item.id.data = true)

/-- The rows returned by the query of `getItems`. -/
def queryItems (db : DB) : List JoinRow :=
  orderByID (db.items.flatMap (joinItem db))

/-- Go `map[string]*Item`, as its entries in insertion order. -/
abbrev ItemsMap := List (String × Item)

/-- The body of the `rows.Next()` loop of `getItems`. -/
def scanItemsRow (itemsMap : ItemsMap) (row : JoinRow) : ItemsMap :=
  let itemsMap : ItemsMap :=
    if ∃ e ∈ itemsMap, e.1 = row.item.id then itemsMap
    else itemsMap ++ [(row.item.id, newItem row)]
  match row.tag_id, row.tag_name with
  | some tagID, some tagName =>
    itemsMap.map (fun e =>
      if e.1 = row.item.id then
        (e.1, { e.2 with Tags := sliceAppend e.2.Tags { ID := tagID, Name := tagName } })
      else e)
  | _, _ => itemsMap

/-- The fold of `getItems` over the rows its loop was given, followed by the `range` over
the map; `rangeOrder` is the order in which the Go runtime iterates the map. -/
def foldItems (rangeOrder : ItemsMap → ItemsMap) (rows : List JoinRow) :
    Option (List Item) :=
  (rangeOrder (rows.foldl scanItemsRow [])).foldl (fun items e => sliceAppend items e.2) none

/-- Go `getItems(conn)`. -/
def getItems (db : DB) (faults : List Fault) (rangeOrder : ItemsMap → ItemsMap) :
    Except DBError (Option (List Item)) :=
  match queryRows faults (queryItems db) with
  | .error e => .error e
  | .ok rows => .ok (foldItems rangeOrder rows)

/-! ## Specification vocabulary -/

/-- The engine reports no failure during the call. -/
def NoFault (faults : List Fault) : Prop := ∀ f ∈ faults, f = Fault.ok

instance (faults : List Fault) : Decidable (NoFault faults) := by
  unfold NoFault; infer_instance

/-- The association rows left after deleting the pair `(itemID, tagID)`. -/
def withoutPair (db : DB) (itemID : String) (tagID : Int) : List ItemTagRow :=
  db.items_tags.filter (fun r => ¬ (r.item_id = itemID ∧ r.tag_id = tagID))

/-- The database a successful `untagItemTxn` leaves in the transaction. -/
def untagged (db : DB) (itemID : String) (tagID : Int) : DB :=
  { db with
    items_tags := withoutPair db itemID tagID,
    tags :=
      if ∀ r ∈ withoutPair db itemID tagID, r.tag_id ≠ tagID then
        db.tags.filter (fun t => ¬ t.id = tagID)
      else db.tags }

/-- Items `X` and `Y`, both tagged `a`. -/
def sharedTagDB : DB :=
  { items := [⟨"X", "x", "http://x", false, "t0", "t0"⟩, ⟨"Y", "y", "http://y", false, "t0", "t0"⟩],
    tags := [⟨1, "a"⟩],
    items_tags := [⟨"X", 1⟩, ⟨"Y", 1⟩],
    tags_seq := 1 }

/-- Item `X` tagged `a` only, and nothing else. -/
def singleTagDB : DB :=
  { items := [⟨"X", "x", "http://x", false, "t0", "t0"⟩],
    tags := [⟨1, "a"⟩],
    items_tags := [⟨"X", 1⟩],
    tags_seq := 1 }

/-- The `UNIQUE` constraint on `tags.name` holds. -/
def TagNamesUnique (db : DB) : Prop := (db.tags.map (fun t => t.name)).Nodup

instance (db : DB) : Decidable (TagNamesUnique db) := by
  unfold TagNamesUnique; infer_instance

/-- The primary key of `items` holds. -/
def ItemIDsUnique (db : DB) : Prop := (db.items.map (fun i => i.id)).Nodup

instance (db : DB) : Decidable (ItemIDsUnique db) := by
  unfold ItemIDsUnique; infer_instance

/-- The primary key of `tags` holds. -/
def TagIDsUnique (db : DB) : Prop := (db.tags.map (fun t => t.id)).Nodup

instance (db : DB) : Decidable (TagIDsUnique db) := by
  unfold TagIDsUnique; infer_instance

/-- The tags associated with an item, in the order of the query rows: its association
rows ascending by `tag_id`, each with the tag rows of that id. -/
def tagsOf (db : DB) (itemID : String) : List Tag :=
  (itemTagsOf itemID db).flatMap (fun it =>
    (db.tags.filter (fun t => decide (t.id = it.tag_id))).map
      (fun t => { ID := t.id, Name := t.name }))

/-- The aggregate of an item row with a given tag list. -/
def itemOf (i : ItemRow) (tags : List Tag) : Item :=
  { ID := i.id, Title := i.title, URL := i.url, Starred := i.starred,
    CreatedAt := i.created_at, UpdatedAt := i.updated_at, Tags := some tags }

/-- The tag a joined row carries, if its tag columns are not null. -/
def rowTag (row : JoinRow) : Option Tag :=
  match row.tag_id, row.tag_name with
  | some tagID, some tagName => some { ID := tagID, Name := tagName }
  | _, _ => none

/-- Items `X` (tagged `a`, `b`) and `Y` (no tag). -/
def twoItemsDB : DB :=
  { items := [⟨"X", "x", "http://x", false, "t0", "t0"⟩, ⟨"Y", "y", "http://y", true, "t1", "t2"⟩],
    tags := [⟨1, "a"⟩, ⟨2, "b"⟩],
    items_tags := [⟨"X", 1⟩, ⟨"X", 2⟩],
    tags_seq := 2 }

/-- Item `X` tagged first `b` (id 2), then `a` (id 1): the association rows are stored in
that order. -/
def reversedTagsDB : DB :=
  { items := [⟨"X", "x", "http://x", false, "t0", "t0"⟩],
    tags := [⟨1, "a"⟩, ⟨2, "b"⟩],
    items_tags := [⟨"X", 2⟩, ⟨"X", 1⟩],
    tags_seq := 2 }

/-- Database `db2` is `db1` with tag rows appended (and the sequence value moved): what a
run of `createOrGetTagByName` calls can do. -/
def TagsGrown (db1 db2 : DB) : Prop :=
  db2.items = db1.items ∧ db2.items_tags = db1.items_tags ∧
  ∃ extra, db2.tags = db1.tags ++ extra

/-- The database with its association table replaced. -/
def DB.withItemTags (db : DB) (rows : List ItemTagRow) : DB := { db with items_tags := rows }

/-- The row that `UPDATE items SET ..., updated_at = CURRENT_TIMESTAMP` leaves. -/
def updatedRow (now : String) (title url : Option String) (starred : Option Bool)
    (r : ItemRow) : ItemRow :=
  { id := r.id, title := title.getD r.title, url := url.getD r.url,
    starred := starred.getD r.starred, created_at := r.created_at, updated_at := now }

/-- The association table after reconciling item `itemID` to the tag ids `ids`, when the
loop over the existing associations delivered `existing`: the rows of `itemID` with a tag
of `existing` that is not in `ids` are filtered out, and one row is appended for every
entry of `ids` that is not in `existing`. -/
def reconciled (db : DB) (itemID : String) (existing ids : List Int) : List ItemTagRow :=
  db.items_tags.filter
    (fun r => ¬ (r.item_id = itemID ∧ r.tag_id ∈ existing ∧ r.tag_id ∉ ids)) ++
  (ids.filter (fun t => t ∉ existing)).map (fun t => { item_id := itemID, tag_id := t })

/-- The state `updateItem("X", title = "x", tagNames = [])` leaves from `singleTagDB` at
time `t1`: no association, tag `a` still there. -/
def orphanDB : DB :=
  { items := [⟨"X", "x", "http://x", false, "t0", "t1"⟩],
    tags := [⟨1, "a"⟩],
    items_tags := [],
    tags_seq := 1 }

/-- The state left by `updateItem("X", title, ["b"])` on `singleTagDB` when the engine
rolls the transaction back at the first step of the `SELECT tag_id` loop: the title is
not updated, tag `b` and the association `(X, 2)` are stored, `(X, 1)` is still there. -/
def halfAppliedDB : DB :=
  { items := [⟨"X", "x", "http://x", false, "t0", "t0"⟩],
    tags := [⟨1, "a"⟩, ⟨2, "b"⟩],
    items_tags := [⟨"X", 1⟩, ⟨"X", 2⟩],
    tags_seq := 2 }

/-- The tags carried by the rows of item id `k`, in row order. -/
def rowTagsOf (rows : List JoinRow) (k : String) : List Tag :=
  (rows.filter (fun r => decide (r.item.id = k))).filterMap rowTag

/-- The map after the first statement of the row loop of `getItems`: an entry for the
row's item id is there. -/
def ensureEntry (m : ItemsMap) (row : JoinRow) : ItemsMap :=
  if ∃ e ∈ m, e.1 = row.item.id then m else m ++ [(row.item.id, newItem row)]

/-- The entry of item id `k` with tag `t` appended to its `Tags`; other entries as they
are. -/
def addTagTo (k : String) (t : Tag) (e : String × Item) : String × Item :=
  if e.1 = k then (e.1, { e.2 with Tags := sliceAppend e.2.Tags t }) else e

/-- State `tx2` is a later state of the transaction `tx1`: the schedule only shrank, and a
rollback still gives the image that `tx1` would restore. -/
def Keeps (tx1 tx2 : TxState) : Prop :=
  (∀ x ∈ tx2.faults, x ∈ tx1.faults) ∧ ∀ s, tx1.snapshot = some s → Rollback tx2 = s

/-- The items table is `s` both in the current database of the connection and in the
database a rollback would leave. -/
def ItemsAre (s : List ItemRow) (tx : TxState) : Prop :=
  tx.db.items = s ∧ (Rollback tx).items = s

/-! # Theorems -/

/-! ## The fault schedule and single calls -/

theorem tick_noFault {faults : List Fault} (h : NoFault faults) :
    ∃ rest, tick faults = (Fault.ok, rest) ∧ NoFault rest := by
  cases faults with
  | nil => exact ⟨[], rfl, h⟩
  | cons f rest =>
    have hf : f = Fault.ok := h f (by simp)
    subst hf
    exact ⟨rest, rfl, fun x hx => h x (List.mem_cons_of_mem _ hx)⟩

theorem tick_subset (faults : List Fault) : ∀ x ∈ (tick faults).2, x ∈ faults := by
  cases faults with
  | nil => simp [tick]
  | cons f rest => intro x hx; exact List.mem_cons_of_mem _ hx

theorem Rollback_afterFault (tx : TxState) (f : Fault) (rest : List Fault) :
    Rollback (afterFault tx f rest) = Rollback tx := by
  cases f <;> simp [afterFault, Rollback]

theorem afterFault_faults (tx : TxState) (f : Fault) (rest : List Fault) :
    (afterFault tx f rest).faults = rest := by
  cases f <;> rfl

/-- What a successful `Exec` did. -/
theorem txExec_ok {tx tx' : TxState} {stmt : DB → Except DBError DB}
    (h : txExec tx stmt = (none, tx')) :
    stmt tx.db = .ok tx'.db ∧ tx'.snapshot = tx.snapshot ∧ tx'.faults = (tick tx.faults).2 := by
  unfold txExec at h
  rcases ht : tick tx.faults with ⟨f, rest⟩
  rw [ht] at h
  cases f with
  | ok =>
    simp only at h
    cases hs : stmt tx.db with
    | error e => rw [hs] at h; simp at h
    | ok db =>
      rw [hs] at h
      simp only [Prod.mk.injEq, true_and] at h
      subst h
      exact ⟨rfl, rfl, rfl⟩
  | fail => simp at h
  | abort => simp at h

/-- Whatever an `Exec` returns, the schedule only shrinks and a rollback still gives the
image of the open transaction. -/
theorem txExec_keeps (tx : TxState) (stmt : DB → Except DBError DB) :
    (txExec tx stmt).2.faults = (tick tx.faults).2 ∧
    ∀ s, tx.snapshot = some s → Rollback (txExec tx stmt).2 = s := by
  unfold txExec
  rcases ht : tick tx.faults with ⟨f, rest⟩
  cases f with
  | ok =>
    simp only
    cases hs : stmt tx.db with
    | error e => exact ⟨rfl, fun s h => by simp [Rollback, h]⟩
    | ok db => exact ⟨rfl, fun s h => by simp [Rollback, h]⟩
  | fail =>
    exact ⟨afterFault_faults _ _ _, fun s h => by
      rw [Rollback_afterFault]; simp [Rollback, h]⟩
  | abort =>
    exact ⟨afterFault_faults _ _ _, fun s h => by
      rw [Rollback_afterFault]; simp [Rollback, h]⟩

theorem txExec_noFault (tx : TxState) (stmt : DB → Except DBError DB) {db : DB}
    (hf : NoFault tx.faults) (h : stmt tx.db = .ok db) :
    ∃ tx', txExec tx stmt = (none, tx') ∧ tx'.db = db ∧ tx'.snapshot = tx.snapshot ∧
      NoFault tx'.faults := by
  obtain ⟨rest, hr, hfr⟩ := tick_noFault hf
  unfold txExec
  rw [hr]
  simp only [h]
  exact ⟨_, rfl, rfl, rfl, hfr⟩

/-- What a successful `QueryRow(...).Scan` did. -/
theorem txQueryRow_ok {α : Type} {tx tx' : TxState} {q : DB → α} {a : α}
    (h : txQueryRow tx q = (.ok a, tx')) :
    a = q tx.db ∧ tx'.db = tx.db ∧ tx'.snapshot = tx.snapshot ∧
      tx'.faults = (tick tx.faults).2 := by
  unfold txQueryRow at h
  rcases ht : tick tx.faults with ⟨f, rest⟩
  rw [ht] at h
  cases f with
  | ok =>
    simp only [Prod.mk.injEq, Except.ok.injEq] at h
    obtain ⟨h1, h2⟩ := h
    subst h1 h2
    exact ⟨rfl, rfl, rfl, rfl⟩
  | fail => simp at h
  | abort => simp at h

theorem txQueryRow_keeps {α : Type} (tx : TxState) (q : DB → α) :
    (txQueryRow tx q).2.faults = (tick tx.faults).2 ∧
    ∀ s, tx.snapshot = some s → Rollback (txQueryRow tx q).2 = s := by
  unfold txQueryRow
  rcases ht : tick tx.faults with ⟨f, rest⟩
  cases f with
  | ok => exact ⟨rfl, fun s h => by simp [Rollback, h]⟩
  | fail =>
    exact ⟨afterFault_faults _ _ _, fun s h => by
      rw [Rollback_afterFault]; simp [Rollback, h]⟩
  | abort =>
    exact ⟨afterFault_faults _ _ _, fun s h => by
      rw [Rollback_afterFault]; simp [Rollback, h]⟩

theorem txQueryRow_noFault {α : Type} (tx : TxState) (q : DB → α) (hf : NoFault tx.faults) :
    ∃ tx', txQueryRow tx q = (.ok (q tx.db), tx') ∧ tx'.db = tx.db ∧
      tx'.snapshot = tx.snapshot ∧ NoFault tx'.faults := by
  obtain ⟨rest, hr, hfr⟩ := tick_noFault hf
  unfold txQueryRow
  rw [hr]
  exact ⟨_, rfl, rfl, rfl, hfr⟩

theorem txExec_subset (tx : TxState) (stmt : DB → Except DBError DB) :
    ∀ x ∈ (txExec tx stmt).2.faults, x ∈ tx.faults := by
  rw [(txExec_keeps tx stmt).1]
  exact tick_subset _

theorem txQueryRow_subset {α : Type} (tx : TxState) (q : DB → α) :
    ∀ x ∈ (txQueryRow tx q).2.faults, x ∈ tx.faults := by
  rw [(txQueryRow_keeps tx q).1]
  exact tick_subset _

/-! ## Row loops that ignore `rows.Err()` -/

theorem stepRows_noFault {α : Type} (rows : List α) {faults : List Fault}
    (h : NoFault faults) :
    (stepRows rows faults).1 = rows ∧ (stepRows rows faults).2.1 = false ∧
      NoFault (stepRows rows faults).2.2 := by
  induction rows generalizing faults with
  | nil =>
    cases faults with
    | nil => exact ⟨rfl, rfl, h⟩
    | cons f rest =>
      have hf : f = Fault.ok := h f (by simp)
      subst hf
      exact ⟨rfl, rfl, fun x hx => h x (List.mem_cons_of_mem _ hx)⟩
  | cons r rs ih =>
    cases faults with
    | nil => exact ⟨rfl, rfl, h⟩
    | cons f rest =>
      have hf : f = Fault.ok := h f (by simp)
      subst hf
      obtain ⟨h1, h2, h3⟩ := ih (fun x hx => h x (List.mem_cons_of_mem _ hx))
      simp only [stepRows]
      exact ⟨by rw [h1], h2, h3⟩

theorem stepRows_initial {α : Type} (rows : List α) (faults : List Fault) :
    (stepRows rows faults).1 <+: rows := by
  induction rows generalizing faults with
  | nil => cases faults <;> simp [stepRows]
  | cons r rs ih =>
    cases faults with
    | nil => simp [stepRows]
    | cons f rest =>
      cases f with
      | ok =>
        simp only [stepRows]
        exact (List.prefix_cons_inj r).mpr (ih rest)
      | fail => simp [stepRows]
      | abort => simp [stepRows]

theorem stepRows_subset {α : Type} (rows : List α) (faults : List Fault) :
    ∀ x ∈ (stepRows rows faults).2.2, x ∈ faults := by
  induction rows generalizing faults with
  | nil =>
    cases faults with
    | nil => simp [stepRows]
    | cons f rest => intro x hx; exact List.mem_cons_of_mem _ hx
  | cons r rs ih =>
    cases faults with
    | nil => simp [stepRows]
    | cons f rest =>
      cases f with
      | ok =>
        intro x hx
        exact List.mem_cons_of_mem _ (ih rest x hx)
      | fail => intro x hx; exact List.mem_cons_of_mem _ hx
      | abort => intro x hx; exact List.mem_cons_of_mem _ hx

theorem stepRows_noAbort {α : Type} (rows : List α) {faults : List Fault}
    (h : Fault.abort ∉ faults) : (stepRows rows faults).2.1 = false := by
  induction rows generalizing faults with
  | nil =>
    cases faults with
    | nil => rfl
    | cons f rest =>
      simp only [stepRows, decide_eq_false_iff_not]
      intro hf
      exact h (by simp [hf])
  | cons r rs ih =>
    cases faults with
    | nil => rfl
    | cons f rest =>
      cases f with
      | ok =>
        simp only [stepRows]
        exact ih (fun hx => h (List.mem_cons_of_mem _ hx))
      | fail => rfl
      | abort => exact absurd (by simp) h

/-- What the `SELECT` of a row loop did when `Query` returned no error: it delivered a
beginning of the rows; the database is as before, unless a failing step made the engine
roll the transaction back. -/
theorem txQueryRows_ok {α : Type} {tx tx' : TxState} {q : DB → List α} {rows : List α}
    (h : txQueryRows tx q = (.ok rows, tx')) :
    rows <+: q tx.db ∧
    (∀ x ∈ tx'.faults, x ∈ tx.faults) ∧
    Rollback tx' = Rollback tx ∧
    ((tx'.snapshot = tx.snapshot ∧ tx'.db = tx.db) ∨
      (tx'.snapshot = none ∧ tx'.db = Rollback tx)) ∧
    (NoFault tx.faults → rows = q tx.db ∧ tx'.snapshot = tx.snapshot ∧ tx'.db = tx.db ∧
      NoFault tx'.faults) ∧
    (Fault.abort ∉ tx.faults → tx'.snapshot = tx.snapshot ∧ tx'.db = tx.db) := by
  unfold txQueryRows at h
  rcases ht : tick tx.faults with ⟨f, rest⟩
  have hsub : ∀ x ∈ rest, x ∈ tx.faults := by
    have := tick_subset tx.faults
    rw [ht] at this
    exact this
  rw [ht] at h
  cases f with
  | fail => simp at h
  | abort => simp at h
  | ok =>
    simp only [Prod.mk.injEq, Except.ok.injEq] at h
    obtain ⟨h1, h2⟩ := h
    subst h1
    have hfaults : tx'.faults = (stepRows (q tx.db) rest).2.2 := by
      rw [← h2]; split <;> rfl
    refine ⟨stepRows_initial _ _, ?_, ?_, ?_, ?_, ?_⟩
    · intro x hx
      rw [hfaults] at hx
      exact hsub x (stepRows_subset _ _ x hx)
    · rw [← h2]
      split
      · simp only [Rollback]
      · simp only [Rollback]
    · rw [← h2]
      split
      · exact Or.inr ⟨rfl, rfl⟩
      · exact Or.inl ⟨rfl, rfl⟩
    · intro hnf
      obtain ⟨r0, hr0, hnf0⟩ := tick_noFault hnf
      rw [ht] at hr0
      simp only [Prod.mk.injEq, true_and] at hr0
      subst hr0
      obtain ⟨s1, s2, s3⟩ := stepRows_noFault (q tx.db) hnf0
      rw [← h2, s2]
      exact ⟨s1, rfl, rfl, s3⟩
    · intro hna
      have : (stepRows (q tx.db) rest).2.1 = false :=
        stepRows_noAbort _ (fun hx => hna (hsub _ hx))
      rw [← h2, this]
      exact ⟨rfl, rfl⟩

/-- Whatever the `SELECT` of a row loop returns, the schedule only shrinks and a rollback
gives what it gave before. -/
theorem txQueryRows_keeps {α : Type} (tx : TxState) (q : DB → List α) :
    (∀ x ∈ (txQueryRows tx q).2.faults, x ∈ tx.faults) ∧
    Rollback (txQueryRows tx q).2 = Rollback tx := by
  rcases hres : txQueryRows tx q with ⟨res, tx'⟩
  simp only
  cases res with
  | ok rows =>
    obtain ⟨_, h2, h3, _⟩ := txQueryRows_ok hres
    exact ⟨h2, h3⟩
  | error e =>
    unfold txQueryRows at hres
    rcases ht : tick tx.faults with ⟨f, rest⟩
    have hsub : ∀ x ∈ rest, x ∈ tx.faults := by
      have := tick_subset tx.faults
      rw [ht] at this
      exact this
    rw [ht] at hres
    cases f with
    | ok => simp at hres
    | fail =>
      simp only [Prod.mk.injEq] at hres
      rw [← hres.2]
      exact ⟨by rw [afterFault_faults]; exact hsub, Rollback_afterFault tx _ rest⟩
    | abort =>
      simp only [Prod.mk.injEq] at hres
      rw [← hres.2]
      exact ⟨by rw [afterFault_faults]; exact hsub, Rollback_afterFault tx _ rest⟩

theorem txQueryRows_noFault {α : Type} (tx : TxState) (q : DB → List α)
    (hf : NoFault tx.faults) :
    ∃ tx', txQueryRows tx q = (.ok (q tx.db), tx') ∧ tx'.db = tx.db ∧
      tx'.snapshot = tx.snapshot ∧ NoFault tx'.faults := by
  obtain ⟨rest, hr, hfr⟩ := tick_noFault hf
  obtain ⟨s1, s2, s3⟩ := stepRows_noFault (q tx.db) hfr
  unfold txQueryRows
  rw [hr]
  simp only [s1, s2]
  exact ⟨_, rfl, rfl, rfl, s3⟩

/-! ## Transactions -/

theorem Keeps.same (tx : TxState) : Keeps tx tx :=
  ⟨fun _ hx => hx, fun s h => by simp [Rollback, h]⟩

theorem Keeps.next {a b c : TxState} (h1 : Keeps a b) (hs : b.snapshot = a.snapshot)
    (h2 : Keeps b c) : Keeps a c :=
  ⟨fun x hx => h1.1 x (h2.1 x hx), fun s h => h2.2 s (by rw [hs]; exact h)⟩

theorem txExec_Keeps (tx : TxState) (stmt : DB → Except DBError DB) :
    Keeps tx (txExec tx stmt).2 :=
  ⟨txExec_subset tx stmt, (txExec_keeps tx stmt).2⟩

theorem txQueryRow_Keeps {α : Type} (tx : TxState) (q : DB → α) :
    Keeps tx (txQueryRow tx q).2 :=
  ⟨txQueryRow_subset tx q, (txQueryRow_keeps tx q).2⟩

theorem Begin_ok {db : DB} {faults : List Fault} {tx : TxState}
    (h : Begin db faults = .ok tx) :
    tx.db = db ∧ tx.snapshot = some db ∧ ∀ x ∈ tx.faults, x ∈ faults := by
  unfold Begin at h
  rcases ht : tick faults with ⟨f, rest⟩
  have hsub := tick_subset faults
  rw [ht] at h hsub
  cases f with
  | ok =>
    simp only [Except.ok.injEq] at h
    subst h
    exact ⟨rfl, rfl, hsub⟩
  | fail => simp at h
  | abort => simp at h

theorem Begin_noFault (db : DB) {faults : List Fault} (hf : NoFault faults) :
    ∃ tx, Begin db faults = .ok tx ∧ tx.db = db ∧ tx.snapshot = some db ∧
      NoFault tx.faults := by
  obtain ⟨rest, hr, hfr⟩ := tick_noFault hf
  unfold Begin
  rw [hr]
  exact ⟨_, rfl, rfl, rfl, hfr⟩

theorem Commit_ok {tx : TxState} {db' : DB} (h : Commit tx = (none, db')) :
    db' = tx.db ∧ ∃ s, tx.snapshot = some s := by
  unfold Commit at h
  rcases ht : tick tx.faults with ⟨f, rest⟩
  rw [ht] at h
  cases f with
  | ok =>
    simp only at h
    cases hs : tx.snapshot with
    | none => rw [hs] at h; simp at h
    | some s =>
      rw [hs] at h
      simp only [Prod.mk.injEq, true_and] at h
      exact ⟨h.symm, s, rfl⟩
  | fail => simp at h
  | abort => simp at h

/-- A failing `Commit` on an open transaction leaves the image of the transaction. -/
theorem Commit_error {tx : TxState} {s : DB} (hs : tx.snapshot = some s)
    (h : (Commit tx).1 ≠ none) : (Commit tx).2 = s := by
  unfold Commit at h ⊢
  rcases ht : tick tx.faults with ⟨f, rest⟩
  rw [ht] at h
  cases f with
  | ok => simp [hs] at h
  | fail => simp [Rollback, hs]
  | abort => simp [Rollback, hs]

theorem Commit_noFault {tx : TxState} {s : DB} (hf : NoFault tx.faults)
    (hs : tx.snapshot = some s) : Commit tx = (none, tx.db) := by
  obtain ⟨rest, hr, _⟩ := tick_noFault hf
  unfold Commit
  rw [hr]
  simp [hs]

/-! ## untagItem -/

theorem countItemTags_eq_zero {tagID : Int} {db : DB} :
    countItemTags tagID db = 0 ↔ ∀ r ∈ db.items_tags, r.tag_id ≠ tagID := by
  simp [countItemTags, List.filter_eq_nil_iff]

theorem untagItemTxn_ok {tx tx' : TxState} {itemID : String} {tagID : Int}
    (h : untagItemTxn tx itemID tagID = (none, tx')) :
    tx'.db = untagged tx.db itemID tagID ∧ tx'.snapshot = tx.snapshot := by
  unfold untagItemTxn at h
  rcases h1 : txExec tx (deleteItemTag itemID tagID) with ⟨r1, tx1⟩
  rw [h1] at h
  cases r1 with
  | some e => simp at h
  | none =>
    simp only at h
    obtain ⟨hd1, hs1, _⟩ := txExec_ok h1
    simp only [deleteItemTag, Except.ok.injEq] at hd1
    rcases h2 : txQueryRow tx1 (countItemTags tagID) with ⟨r2, tx2⟩
    rw [h2] at h
    cases r2 with
    | error e => simp at h
    | ok count =>
      simp only at h
      obtain ⟨hc, hd2, hs2, _⟩ := txQueryRow_ok h2
      subst hc
      split at h
      · rename_i hz
        rw [countItemTags_eq_zero, ← hd1] at hz
        have hz' : ∀ r ∈ withoutPair tx.db itemID tagID, r.tag_id ≠ tagID := hz
        obtain ⟨hd3, hs3, _⟩ := txExec_ok h
        simp only [deleteTag, Except.ok.injEq] at hd3
        refine ⟨?_, by rw [hs3, hs2, hs1]⟩
        rw [← hd3, hd2, ← hd1]
        simp only [untagged, if_pos hz']
        rfl
      · rename_i hz
        rw [countItemTags_eq_zero, ← hd1] at hz
        have hz' : ¬ ∀ r ∈ withoutPair tx.db itemID tagID, r.tag_id ≠ tagID := hz
        simp only [Prod.mk.injEq, true_and] at h
        subst h
        refine ⟨?_, by rw [hs2, hs1]⟩
        rw [hd2, ← hd1]
        simp only [untagged, if_neg hz']
        rfl

theorem untagItemTxn_Keeps (tx : TxState) (itemID : String) (tagID : Int) :
    Keeps tx (untagItemTxn tx itemID tagID).2 := by
  unfold untagItemTxn
  have k1 := txExec_Keeps tx (deleteItemTag itemID tagID)
  rcases h1 : txExec tx (deleteItemTag itemID tagID) with ⟨r1, tx1⟩
  rw [h1] at k1
  cases r1 with
  | some e => exact k1
  | none =>
    simp only
    have hs1 := (txExec_ok h1).2.1
    have k2 := txQueryRow_Keeps tx1 (countItemTags tagID)
    rcases h2 : txQueryRow tx1 (countItemTags tagID) with ⟨r2, tx2⟩
    rw [h2] at k2
    cases r2 with
    | error e => exact k1.next hs1 k2
    | ok count =>
      simp only
      have hs2 := (txQueryRow_ok h2).2.2.1
      split
      · exact (k1.next hs1 k2).next (by rw [hs2, hs1]) (txExec_Keeps tx2 _)
      · exact k1.next hs1 k2

theorem untagItemTxn_noFault (tx : TxState) (itemID : String) (tagID : Int)
    (hf : NoFault tx.faults) :
    ∃ tx', untagItemTxn tx itemID tagID = (none, tx') ∧ NoFault tx'.faults := by
  unfold untagItemTxn
  obtain ⟨tx1, h1, _, _, hf1⟩ := txExec_noFault tx (deleteItemTag itemID tagID) hf rfl
  obtain ⟨tx2, h2, _, _, hf2⟩ := txQueryRow_noFault tx1 (countItemTags tagID) hf1
  simp only [h1, h2]
  split
  · obtain ⟨tx3, h3, _, _, hf3⟩ := txExec_noFault tx2 (deleteTag tagID) hf2 rfl
    exact ⟨tx3, h3, hf3⟩
  · exact ⟨tx2, rfl, hf2⟩

theorem untagItem_ok {db db' : DB} {faults : List Fault} {itemID : String} {tagID : Int}
    (h : untagItem db faults itemID tagID = (none, db')) :
    db' = untagged db itemID tagID := by
  unfold untagItem at h
  cases h0 : Begin db faults with
  | error e => simp [h0] at h
  | ok tx =>
    simp only [h0] at h
    obtain ⟨hdb, _, _⟩ := Begin_ok h0
    rcases h1 : untagItemTxn tx itemID tagID with ⟨r1, tx1⟩
    rw [h1] at h
    cases r1 with
    | some e => simp at h
    | none =>
      simp only at h
      rw [(Commit_ok h).1, (untagItemTxn_ok h1).1, hdb]

theorem untagItem_error_unchanged (db : DB) (faults : List Fault) (itemID : String)
    (tagID : Int) (h : (untagItem db faults itemID tagID).1 ≠ none) :
    (untagItem db faults itemID tagID).2 = db := by
  unfold untagItem at h ⊢
  cases h0 : Begin db faults with
  | error e => rfl
  | ok tx =>
    simp only [h0] at h ⊢
    obtain ⟨_, hsnap, _⟩ := Begin_ok h0
    have k := untagItemTxn_Keeps tx itemID tagID
    rcases h1 : untagItemTxn tx itemID tagID with ⟨r1, tx1⟩
    rw [h1] at h k
    cases r1 with
    | some e => exact k.2 db hsnap
    | none =>
      simp only at h ⊢
      exact Commit_error (by rw [(untagItemTxn_ok h1).2, hsnap]) h

/-- C3: `untagItem` succeeds whenever the engine reports no fault, and after a successful
`untagItem(itemID, tagID)` the association `(itemID, tagID)` is absent, the association
table is the old one with exactly that row filtered out, the items table is unchanged, and
the tags table is the old one without the row `tagID` when no association with `tagID`
remains, and is unchanged when one remains. -/
theorem untagItem_spec (db : DB) (faults : List Fault) (itemID : String) (tagID : Int) :
    (NoFault faults → (untagItem db faults itemID tagID).1 = none) ∧
    ∀ db', untagItem db faults itemID tagID = (none, db') →
      { item_id := itemID, tag_id := tagID } ∉ db'.items_tags ∧
      db'.items_tags =
        db.items_tags.filter (fun r => decide (r ≠ { item_id := itemID, tag_id := tagID })) ∧
      db'.items = db.items ∧
      ((∀ r ∈ db'.items_tags, r.tag_id ≠ tagID) →
        (∀ t ∈ db'.tags, t.id ≠ tagID) ∧
        db'.tags = db.tags.filter (fun t => decide (t.id ≠ tagID))) ∧
      ((∃ r ∈ db'.items_tags, r.tag_id = tagID) → db'.tags = db.tags) := by
  refine ⟨?_, ?_⟩
  · intro hf
    unfold untagItem
    obtain ⟨tx, h0, _, hsnap, hf0⟩ := Begin_noFault db hf
    obtain ⟨tx1, h1, hf1⟩ := untagItemTxn_noFault tx itemID tagID hf0
    simp only [h0, h1]
    rw [Commit_noFault hf1 (by rw [(untagItemTxn_ok h1).2, hsnap])]
  · intro db' h
    have hdb := untagItem_ok h
    subst hdb
    have hfilt : (untagged db itemID tagID).items_tags =
        db.items_tags.filter (fun r => decide (r ≠ { item_id := itemID, tag_id := tagID })) := by
      simp only [untagged, withoutPair]
      apply List.filter_congr
      intro r _
      cases r
      simp
    refine ⟨?_, hfilt, rfl, ?_, ?_⟩
    · rw [hfilt]; simp
    · intro hall
      have ht : (untagged db itemID tagID).tags =
          db.tags.filter (fun t => decide (t.id ≠ tagID)) := by
        have hall' : ∀ r ∈ withoutPair db itemID tagID, r.tag_id ≠ tagID := hall
        simp only [untagged, if_pos hall']
      refine ⟨?_, ht⟩
      rw [ht]; simp
    · intro hex
      have hc : ¬ ∀ r ∈ withoutPair db itemID tagID, r.tag_id ≠ tagID := by
        intro h0
        obtain ⟨r, hr, hrt⟩ := hex
        exact h0 r hr hrt
      simp only [untagged, if_neg hc]

/-- C3 at a concrete state: `X` and `Y` both carry tag 1; untagging `X` succeeds, leaves
the row of `Y`, and keeps the tag row. -/
theorem untagItem_spec_witness :
    (untagItem sharedTagDB [] "X" 1).1 = none ∧
    untagItem sharedTagDB [] "X" 1 = (none, { sharedTagDB with items_tags := [⟨"Y", 1⟩] }) ∧
    ({ sharedTagDB with items_tags := [⟨"Y", 1⟩] } : DB).tags = sharedTagDB.tags :=
  ⟨(untagItem_spec sharedTagDB [] "X" 1).1 (by decide), by decide,
   ((untagItem_spec sharedTagDB [] "X" 1).2 { sharedTagDB with items_tags := [⟨"Y", 1⟩] }
      (by decide)).2.2.2.2 (by decide)⟩

/-! ## createOrGetTagByName -/

theorem le_foldl_max (l : List TagRow) (m : Int) :
    m ≤ l.foldl (fun m t => max m t.id) m ∧ ∀ t ∈ l, t.id ≤ l.foldl (fun m t => max m t.id) m := by
  induction l generalizing m with
  | nil => simp
  | cons a l ih =>
    simp only [List.foldl_cons, List.mem_cons, forall_eq_or_imp]
    obtain ⟨h1, h2⟩ := ih (max m a.id)
    exact ⟨le_trans (le_max_left _ _) h1, le_trans (le_max_right _ _) h1, h2⟩

theorem lt_nextTagID {db : DB} {t : TagRow} (h : t ∈ db.tags) : t.id < nextTagID db := by
  have := (le_foldl_max db.tags 0).2 t h
  unfold nextTagID
  have h2 := le_max_right db.tags_seq (db.tags.foldl (fun m t => max m t.id) 0)
  omega

theorem selectTagIDByName_eq_none {tagName : String} {db : DB} :
    selectTagIDByName tagName db = none ↔ ∀ t ∈ db.tags, t.name ≠ tagName := by
  simp [selectTagIDByName, List.find?_eq_none]

theorem selectTagIDByName_eq_some {tagName : String} {db : DB} {tagID : Int}
    (h : selectTagIDByName tagName db = some tagID) :
    { id := tagID, name := tagName } ∈ db.tags := by
  simp only [selectTagIDByName, Option.map_eq_some'] at h
  obtain ⟨t, ht, hid⟩ := h
  have h1 := List.mem_of_find?_eq_some ht
  have h2 := List.find?_some ht
  simp only [decide_eq_true_eq] at h2
  cases t
  simp_all

theorem eq_of_name_eq {db : DB} (hu : TagNamesUnique db) {t u : TagRow}
    (ht : t ∈ db.tags) (hu' : u ∈ db.tags) (h : t.name = u.name) : t = u :=
  List.inj_on_of_nodup_map hu ht hu' h

/-- What a successful `createOrGetTagByName` did: either the tag existed and nothing
changed, or no tag had the name and one row with the next id was appended.  The
transaction is as open as it was. -/
theorem createOrGetTagByName_ok {tx tx' : TxState} {tagName : String} {tagID : Int}
    (h : createOrGetTagByName tx tagName = (.ok tagID, tx')) :
    tx'.snapshot = tx.snapshot ∧
    ((selectTagIDByName tagName tx.db = some tagID ∧ tx'.db = tx.db) ∨
     (selectTagIDByName tagName tx.db = none ∧ tagID = nextTagID tx.db ∧
      tx'.db = { tx.db with tags := tx.db.tags ++ [{ id := tagID, name := tagName }],
                            tags_seq := tagID })) := by
  unfold createOrGetTagByName at h
  rcases h1 : txQueryRow tx (selectTagIDByName tagName) with ⟨r1, tx1⟩
  rw [h1] at h
  cases r1 with
  | error e => simp at h
  | ok found =>
    obtain ⟨hq, hd1, hs1, _⟩ := txQueryRow_ok h1
    cases found with
    | some i =>
      simp only [Prod.mk.injEq, Except.ok.injEq] at h
      obtain ⟨hi, htx⟩ := h
      subst hi htx
      exact ⟨hs1, Or.inl ⟨hq.symm, hd1⟩⟩
    | none =>
      simp only at h
      rcases ht : tick tx1.faults with ⟨f, rest⟩
      rw [ht] at h
      cases f with
      | fail => simp at h
      | abort => simp at h
      | ok =>
        simp only [insertTag] at h
        have hnone : ∀ t ∈ tx1.db.tags, t.name ≠ tagName := by
          rw [hd1]; exact selectTagIDByName_eq_none.mp hq.symm
        rw [if_neg (by rintro ⟨t, ht, hn⟩; exact hnone t ht hn)] at h
        simp only [Prod.mk.injEq, Except.ok.injEq] at h
        obtain ⟨hi, htx⟩ := h
        subst hi htx
        refine ⟨hs1, Or.inr ⟨hq.symm, by rw [hd1], ?_⟩⟩
        simp only
        rw [hd1]

theorem createOrGetTagByName_Keeps (tx : TxState) (tagName : String) :
    Keeps tx (createOrGetTagByName tx tagName).2 := by
  unfold createOrGetTagByName
  have k1 := txQueryRow_Keeps tx (selectTagIDByName tagName)
  rcases h1 : txQueryRow tx (selectTagIDByName tagName) with ⟨r1, tx1⟩
  rw [h1] at k1
  cases r1 with
  | error e => exact k1
  | ok found =>
    have hs1 := (txQueryRow_ok h1).2.2.1
    cases found with
    | some i => exact k1
    | none =>
      simp only
      refine k1.next hs1 ?_
      rcases ht : tick tx1.faults with ⟨f, rest⟩
      have hsub := tick_subset tx1.faults
      rw [ht] at hsub
      cases f with
      | ok =>
        simp only
        cases insertTag tagName tx1.db with
        | error e =>
          exact ⟨hsub, fun s (h : tx1.snapshot = some s) => by simp [Rollback, h]⟩
        | ok r =>
          exact ⟨hsub, fun s (h : tx1.snapshot = some s) => by simp [Rollback, h]⟩
      | fail =>
        exact ⟨by rw [afterFault_faults]; exact hsub, fun s (h : tx1.snapshot = some s) => by
          rw [Rollback_afterFault]; simp [Rollback, h]⟩
      | abort =>
        exact ⟨by rw [afterFault_faults]; exact hsub, fun s (h : tx1.snapshot = some s) => by
          rw [Rollback_afterFault]; simp [Rollback, h]⟩

theorem createOrGetTagByName_noFault (tx : TxState) (tagName : String)
    (hf : NoFault tx.faults) :
    ∃ tagID tx', createOrGetTagByName tx tagName = (.ok tagID, tx') ∧
      NoFault tx'.faults := by
  unfold createOrGetTagByName
  obtain ⟨tx1, h1, hd1, _, hf1⟩ := txQueryRow_noFault tx (selectTagIDByName tagName) hf
  obtain ⟨r2, h2, hf2⟩ := tick_noFault hf1
  rw [h1]
  cases hs : selectTagIDByName tagName tx.db with
  | some i => exact ⟨i, tx1, rfl, hf1⟩
  | none =>
    simp only [h2, insertTag]
    have hnone : ∀ t ∈ tx1.db.tags, t.name ≠ tagName := by
      rw [hd1]; exact selectTagIDByName_eq_none.mp hs
    rw [if_neg (by rintro ⟨t, ht, hn⟩; exact hnone t ht hn)]
    exact ⟨_, _, rfl, hf2⟩

theorem createOrGetTagByName_unique {tx tx' : TxState} {tagName : String} {tagID : Int}
    (h : createOrGetTagByName tx tagName = (.ok tagID, tx')) (hu : TagNamesUnique tx.db) :
    TagNamesUnique tx'.db := by
  rcases (createOrGetTagByName_ok h).2 with ⟨_, hdb⟩ | ⟨hs, _, hdb⟩
  · rw [hdb]; exact hu
  · rw [hdb]
    unfold TagNamesUnique at *
    simp only [List.map_append, List.map_cons, List.map_nil]
    rw [List.nodup_append]
    refine ⟨hu, by simp, ?_⟩
    intro a ha hb
    simp only [List.mem_singleton] at hb
    subst hb
    simp only [List.mem_map] at ha
    obtain ⟨t, ht, hn⟩ := ha
    exact selectTagIDByName_eq_none.mp hs t ht hn

theorem createOrGetTagByName_mem {tx tx' : TxState} {tagName : String} {tagID : Int}
    (h : createOrGetTagByName tx tagName = (.ok tagID, tx')) :
    { id := tagID, name := tagName } ∈ tx'.db.tags := by
  rcases (createOrGetTagByName_ok h).2 with ⟨hs, hdb⟩ | ⟨_, _, hdb⟩
  · rw [hdb]; exact selectTagIDByName_eq_some hs
  · rw [hdb]; simp

/-- C4: on a state with unique tag names, `createOrGetTagByName(n)` succeeds when the
engine reports no fault; a successful call returns the id of the existing tag named `n`
and leaves the database unchanged when there is one, and otherwise appends exactly one
row `(id, n)` whose id no tag row had (and records it as the sequence value); tag names
stay unique, and a second call returns the same id and changes nothing. -/
theorem createOrGetTagByName_spec (tx : TxState) (tagName : String)
    (hu : TagNamesUnique tx.db) :
    (NoFault tx.faults → ∃ tagID tx', createOrGetTagByName tx tagName = (.ok tagID, tx')) ∧
    ∀ tagID tx', createOrGetTagByName tx tagName = (.ok tagID, tx') →
      ((∃ t ∈ tx.db.tags, t.name = tagName) →
        { id := tagID, name := tagName } ∈ tx.db.tags ∧ tx'.db = tx.db) ∧
      ((∀ t ∈ tx.db.tags, t.name ≠ tagName) →
        (∀ t ∈ tx.db.tags, t.id ≠ tagID) ∧
        tx'.db = { tx.db with tags := tx.db.tags ++ [{ id := tagID, name := tagName }],
                              tags_seq := tagID }) ∧
      TagNamesUnique tx'.db ∧
      (NoFault tx'.faults →
        ∃ tagID2 tx2, createOrGetTagByName tx' tagName = (.ok tagID2, tx2)) ∧
      ∀ tagID2 tx2, createOrGetTagByName tx' tagName = (.ok tagID2, tx2) →
        tagID2 = tagID ∧ tx2.db = tx'.db := by
  refine ⟨fun hf => ?_, ?_⟩
  · obtain ⟨i, tx', h, _⟩ := createOrGetTagByName_noFault tx tagName hf
    exact ⟨i, tx', h⟩
  · intro tagID tx' h
    have hu' := createOrGetTagByName_unique h hu
    have hmem := createOrGetTagByName_mem h
    refine ⟨?_, ?_, hu', fun hf => ?_, ?_⟩
    · rintro ⟨t, ht, hn⟩
      rcases (createOrGetTagByName_ok h).2 with ⟨hs, hdb⟩ | ⟨hs, _, _⟩
      · exact ⟨selectTagIDByName_eq_some hs, hdb⟩
      · exact absurd hn (selectTagIDByName_eq_none.mp hs t ht)
    · intro hall
      rcases (createOrGetTagByName_ok h).2 with ⟨hs, _⟩ | ⟨_, hid, hdb⟩
      · exact absurd rfl (hall _ (selectTagIDByName_eq_some hs))
      · refine ⟨?_, hdb⟩
        intro t ht heq
        have := lt_nextTagID ht
        omega
    · obtain ⟨i, tx2, h2, _⟩ := createOrGetTagByName_noFault tx' tagName hf
      exact ⟨i, tx2, h2⟩
    · intro tagID2 tx2 h2
      rcases (createOrGetTagByName_ok h2).2 with ⟨hs, hdb⟩ | ⟨hs, _, _⟩
      · have hm2 := selectTagIDByName_eq_some hs
        have := eq_of_name_eq hu' hm2 hmem rfl
        simp only [TagRow.mk.injEq, and_true] at this
        exact ⟨this, hdb⟩
      · exact absurd rfl (selectTagIDByName_eq_none.mp hs _ hmem)

/-- C4 at a concrete state: resolving the new name `b` on a table holding `a` creates
tag 2, and tag names stay unique. -/
theorem createOrGetTagByName_spec_witness :
    TagNamesUnique singleTagDB ∧
    (∃ tagID tx', createOrGetTagByName
      { db := singleTagDB, snapshot := some singleTagDB, faults := [] } "b" =
        (.ok tagID, tx')) ∧
    createOrGetTagByName { db := singleTagDB, snapshot := some singleTagDB, faults := [] } "b" =
      (.ok 2, { db := { singleTagDB with tags := [⟨1, "a"⟩, ⟨2, "b"⟩], tags_seq := 2 },
                snapshot := some singleTagDB, faults := [] }) ∧
    TagNamesUnique { singleTagDB with tags := [⟨1, "a"⟩, ⟨2, "b"⟩], tags_seq := 2 } :=
  ⟨by decide,
   (createOrGetTagByName_spec
      { db := singleTagDB, snapshot := some singleTagDB, faults := [] } "b" (by decide)).1
     (by decide),
   by rfl,
   ((createOrGetTagByName_spec
      { db := singleTagDB, snapshot := some singleTagDB, faults := [] } "b" (by decide)).2 2
      { db := { singleTagDB with tags := [⟨1, "a"⟩, ⟨2, "b"⟩], tags_seq := 2 },
        snapshot := some singleTagDB, faults := [] }
      (by rfl)).2.2.1⟩

/-! ## getItemByID -/

theorem queryRows_noFault {α : Type} {faults : List Fault} (rows : List α)
    (hf : NoFault faults) : queryRows faults rows = .ok rows := by
  obtain ⟨rest, hr, hfr⟩ := tick_noFault hf
  unfold queryRows
  rw [hr]
  simp only [(stepRows_noFault rows hfr).1]

theorem queryRows_ok {α : Type} {faults : List Fault} {rows l : List α}
    (h : queryRows faults rows = .ok l) : l <+: rows := by
  unfold queryRows at h
  rcases ht : tick faults with ⟨f, rest⟩
  rw [ht] at h
  cases f with
  | ok =>
    simp only [Except.ok.injEq] at h
    rw [← h]
    exact stepRows_initial _ _
  | fail => simp at h
  | abort => simp at h

theorem mem_itemTagsOf {db : DB} {itemID : String} {r : ItemTagRow} :
    r ∈ itemTagsOf itemID db ↔ r ∈ db.items_tags ∧ r.item_id = itemID := by
  unfold itemTagsOf
  rw [(List.perm_insertionSort _ _).mem_iff, List.mem_filter]
  simp

theorem itemTagsOf_eq_nil {db : DB} {itemID : String} :
    itemTagsOf itemID db = [] ↔ ∀ r ∈ db.items_tags, r.item_id ≠ itemID := by
  constructor
  · intro h r hr hid
    have : r ∈ itemTagsOf itemID db := mem_itemTagsOf.mpr ⟨hr, hid⟩
    rw [h] at this
    simp at this
  · intro h
    apply List.eq_nil_iff_forall_not_mem.mpr
    intro r hr
    obtain ⟨h1, h2⟩ := mem_itemTagsOf.mp hr
    exact h r h1 h2

theorem itemTagsOf_sorted (db : DB) (itemID : String) :
    (itemTagsOf itemID db).Pairwise (fun a b => a.tag_id ≤ b.tag_id) := by
  unfold itemTagsOf
  haveI : IsTotal ItemTagRow (fun a b => a.tag_id ≤ b.tag_id) := ⟨fun a b => le_total _ _⟩
  haveI : IsTrans ItemTagRow (fun a b => a.tag_id ≤ b.tag_id) :=
    ⟨fun a b c h1 h2 => le_trans h1 h2⟩
  exact List.sorted_insertionSort _ _

/-- The tags of an item come ascending by tag id. -/
theorem tagsOf_sorted (db : DB) (itemID : String) :
    ((tagsOf db itemID).map (fun t => t.ID)).Pairwise (fun a b => a ≤ b) := by
  unfold tagsOf
  have hs := itemTagsOf_sorted db itemID
  generalize itemTagsOf itemID db = l at hs
  induction l with
  | nil => simp
  | cons x xs ih =>
    rw [List.pairwise_cons] at hs
    simp only [List.flatMap_cons, List.map_append, List.map_map]
    rw [List.pairwise_append]
    refine ⟨?_, ?_, ?_⟩
    · rw [List.pairwise_map]
      apply List.pairwise_of_forall_mem_list
      intro a ha b hb
      simp only [List.mem_filter, decide_eq_true_eq] at ha hb
      simp only [Function.comp]
      rw [ha.2, hb.2]
    · have := ih hs.2
      simpa [List.map_map] using this
    · intro a ha b hb
      simp only [List.mem_map, List.mem_filter, decide_eq_true_eq, Function.comp] at ha
      obtain ⟨t, ⟨_, ht⟩, rfl⟩ := ha
      simp only [List.mem_map, List.mem_flatMap, List.mem_filter, decide_eq_true_eq] at hb
      obtain ⟨u, ⟨y, hy, v, ⟨_, hv⟩, rfl⟩, rfl⟩ := hb
      simp only
      rw [ht, hv]
      exact hs.1 y hy

theorem scanItemRow_eq (item : Option Item) (row : JoinRow) :
    scanItemRow item row =
      some (match rowTag row with
        | some t => { (item.getD (newItem row)) with
            Tags := sliceAppend (item.getD (newItem row)).Tags t }
        | none => item.getD (newItem row)) := by
  unfold scanItemRow rowTag
  cases item <;> cases row.tag_id <;> cases row.tag_name <;> rfl

theorem foldl_scanItemRow_some (rows : List JoinRow) (it : Item) (tags : List Tag)
    (h : it.Tags = some tags) :
    rows.foldl scanItemRow (some it) =
      some { it with Tags := some (tags ++ rows.filterMap rowTag) } := by
  induction rows generalizing it tags with
  | nil => cases it; simp_all
  | cons row rows ih =>
    rw [List.foldl_cons, scanItemRow_eq]
    cases hr : rowTag row with
    | none =>
      simp only [Option.getD_some, List.filterMap_cons, hr]
      exact ih it tags h
    | some t =>
      simp only [Option.getD_some, List.filterMap_cons, hr]
      rw [ih _ (tags ++ [t]) (by simp [h, sliceAppend])]
      simp

theorem foldl_scanItemRow_none (row : JoinRow) (rows : List JoinRow) :
    (row :: rows).foldl scanItemRow none =
      some (itemOf row.item ((row :: rows).filterMap rowTag)) := by
  rw [List.foldl_cons, scanItemRow_eq]
  cases hr : rowTag row with
  | none =>
    simp only [Option.getD_none, List.filterMap_cons, hr]
    rw [foldl_scanItemRow_some rows (newItem row) [] rfl]
    rfl
  | some t =>
    simp only [Option.getD_none, List.filterMap_cons, hr]
    rw [foldl_scanItemRow_some rows _ [t] (by simp [newItem, sliceAppend])]
    rfl

theorem filterMap_rowTag_joinTags (db : DB) (i : ItemRow) (it : ItemTagRow) :
    (joinTags db i it).filterMap rowTag =
      (db.tags.filter (fun t => decide (t.id = it.tag_id))).map
        (fun t => { ID := t.id, Name := t.name }) := by
  have hf : db.tags.filter (fun t => decide (it.tag_id = t.id)) =
      db.tags.filter (fun t => decide (t.id = it.tag_id)) := by
    apply List.filter_congr
    intro t _
    simp [eq_comm]
  unfold joinTags
  rw [hf]
  split
  · rename_i h
    rw [h]
    simp [rowTag]
  · rw [List.filterMap_map]
    rw [← List.filterMap_eq_map]
    rfl

theorem joinTags_ne_nil (db : DB) (i : ItemRow) (it : ItemTagRow) : joinTags db i it ≠ [] := by
  unfold joinTags
  split
  · simp
  · rename_i h
    simpa using h

theorem joinItem_ne_nil (db : DB) (i : ItemRow) : joinItem db i ≠ [] := by
  unfold joinItem
  split
  · simp
  · rename_i h
    intro h2
    rw [List.flatMap_eq_nil_iff] at h2
    obtain ⟨it, hit⟩ := List.exists_mem_of_ne_nil _ h
    exact joinTags_ne_nil db i it (h2 it hit)

theorem joinItem_item (db : DB) (i : ItemRow) : ∀ row ∈ joinItem db i, row.item = i := by
  intro row hrow
  unfold joinItem at hrow
  split at hrow
  · simp at hrow; rw [hrow]
  · rw [List.mem_flatMap] at hrow
    obtain ⟨it, _, hit⟩ := hrow
    unfold joinTags at hit
    split at hit
    · simp at hit; rw [hit]
    · simp only [List.mem_map] at hit
      obtain ⟨t, _, ht⟩ := hit
      rw [← ht]

theorem filterMap_rowTag_joinItem (db : DB) (i : ItemRow) :
    (joinItem db i).filterMap rowTag = tagsOf db i.id := by
  unfold joinItem tagsOf
  split
  · rename_i h
    rw [h]
    simp [rowTag]
  · generalize itemTagsOf i.id db = l
    induction l with
    | nil => simp
    | cons a l ih =>
      simp only [List.flatMap_cons, List.filterMap_append, ih, filterMap_rowTag_joinTags]

theorem filter_id_eq_nil {db : DB} {itemID : String} :
    db.items.filter (fun i => decide (i.id = itemID)) = [] ↔ ∀ i ∈ db.items, i.id ≠ itemID := by
  simp [List.filter_eq_nil_iff]

theorem filter_id_eq_singleton (l : List ItemRow) (hu : (l.map (fun i => i.id)).Nodup)
    (i : ItemRow) (hi : i ∈ l) :
    l.filter (fun j => decide (j.id = i.id)) = [i] := by
  induction l with
  | nil => simp at hi
  | cons a l ih =>
    simp only [List.map_cons, List.nodup_cons, List.mem_map, not_exists, not_and] at hu
    rcases List.mem_cons.mp hi with rfl | hmem
    · rw [List.filter_cons_of_pos (by simp)]
      congr 1
      rw [List.filter_eq_nil_iff]
      intro j hj
      simpa using hu.1 j hj
    · have hne : a.id ≠ i.id := fun h => hu.1 i hmem h.symm
      rw [List.filter_cons_of_neg (by simpa using hne)]
      exact ih hu.2 hmem

theorem foldl_scanItemRow_joinItem (db : DB) (i : ItemRow) :
    (joinItem db i).foldl scanItemRow none = some (itemOf i (tagsOf db i.id)) := by
  have hne := joinItem_ne_nil db i
  have hitem := joinItem_item db i
  have htags := filterMap_rowTag_joinItem db i
  cases hj : joinItem db i with
  | nil => exact absurd hj hne
  | cons row rows =>
    rw [foldl_scanItemRow_none, ← hj, htags, hitem row (by rw [hj]; simp)]

theorem queryItemByID_eq_nil {db : DB} {itemID : String} :
    queryItemByID db itemID = [] ↔ ∀ i ∈ db.items, i.id ≠ itemID := by
  unfold queryItemByID
  constructor
  · intro h
    rw [List.flatMap_eq_nil_iff] at h
    intro i hi hid
    exact joinItem_ne_nil db i (h i (by simp [List.mem_filter, hi, hid]))
  · intro h
    rw [filter_id_eq_nil.mpr h]
    rfl

theorem foldl_scanItemRow_eq_none {rows : List JoinRow} :
    rows.foldl scanItemRow none = none ↔ rows = [] := by
  constructor
  · intro h
    cases rows with
    | nil => rfl
    | cons row rows => rw [foldl_scanItemRow_none] at h; cases h
  · intro h; rw [h]; rfl

/-- What `getItemByID` guarantees.  When the engine reports no failure it returns without
error; what it returns is nil exactly when no item row has the id, and then the handler
answers 404; when the item row exists (ids being the primary key) it returns the row's
scalar fields with the tags associated with it in the order of the query rows, which is
ascending by tag id, and a non-nil empty tag list when it has no association.  Whatever
the engine does, an id without item row never yields an item. -/
theorem getItemByID_spec (db : DB) (faults : List Fault) (itemID : String) :
    (NoFault faults → ∃ r, getItemByID db faults itemID = .ok r ∧
      (r = none ↔ ∀ i ∈ db.items, i.id ≠ itemID) ∧
      ((handleGetItem db faults itemID).1 = 404 ↔ ∀ i ∈ db.items, i.id ≠ itemID) ∧
      (ItemIDsUnique db → ∀ i ∈ db.items, i.id = itemID →
        r = some { ID := i.id, Title := i.title, URL := i.url, Starred := i.starred,
                   CreatedAt := i.created_at, UpdatedAt := i.updated_at,
                   Tags := some (tagsOf db itemID) } ∧
        ((∀ it ∈ db.items_tags, it.item_id ≠ itemID) →
          ∃ item, r = some item ∧ item.Tags = some []))) ∧
    (∀ r, getItemByID db faults itemID = .ok r → (∀ i ∈ db.items, i.id ≠ itemID) →
      r = none) ∧
    ((tagsOf db itemID).map (fun t => t.ID)).Pairwise (fun a b => a ≤ b) := by
  refine ⟨fun hf => ?_, ?_, tagsOf_sorted db itemID⟩
  · have hget : getItemByID db faults itemID =
        .ok ((queryItemByID db itemID).foldl scanItemRow none) := by
      unfold getItemByID
      rw [queryRows_noFault _ hf]
    have hnone : (queryItemByID db itemID).foldl scanItemRow none = none ↔
        ∀ i ∈ db.items, i.id ≠ itemID := by
      rw [foldl_scanItemRow_eq_none, queryItemByID_eq_nil]
    refine ⟨_, hget, hnone, ?_, ?_⟩
    · rw [← hnone]
      unfold handleGetItem
      rw [hget]
      cases (queryItemByID db itemID).foldl scanItemRow none <;> simp
    · intro hu i hi hid
      subst hid
      have hitem : (queryItemByID db i.id).foldl scanItemRow none =
          some (itemOf i (tagsOf db i.id)) := by
        unfold queryItemByID
        rw [filter_id_eq_singleton db.items hu i hi]
        simp only [List.flatMap_cons, List.flatMap_nil, List.append_nil]
        exact foldl_scanItemRow_joinItem db i
      refine ⟨hitem, ?_⟩
      intro hno
      refine ⟨_, hitem, ?_⟩
      have : itemTagsOf i.id db = [] := itemTagsOf_eq_nil.mpr hno
      simp [itemOf, tagsOf, this]
  · intro r h hall
    unfold getItemByID at h
    cases hq : queryRows faults (queryItemByID db itemID) with
    | error e => rw [hq] at h; simp at h
    | ok rows =>
      rw [hq] at h
      simp only [Except.ok.injEq] at h
      have hp := queryRows_ok hq
      rw [queryItemByID_eq_nil.mpr hall, List.prefix_nil] at hp
      rw [← h, hp]
      rfl

/-- Runs without engine failure, each result obtained from `getItemByID_spec`: `X`,
tagged `b` (id 2) and then `a` (id 1), is returned with its tags in the order `a`, `b`;
`Y` exists without tags and is returned with `Tags = []` (not nil); the absent id `Z`
gives nil and the handler answers 404. -/
theorem getItemByID_spec_witness :
    getItemByID reversedTagsDB [] "X" =
      .ok (some ⟨"X", "x", "http://x", false, "t0", "t0", some [⟨1, "a"⟩, ⟨2, "b"⟩]⟩) ∧
    getItemByID twoItemsDB [] "Y" =
      .ok (some ⟨"Y", "y", "http://y", true, "t1", "t2", some []⟩) ∧
    getItemByID twoItemsDB [] "Z" = .ok none ∧
    (handleGetItem twoItemsDB [] "Z").1 = 404 := by
  obtain ⟨rx, hx, _, _, hitemx⟩ := (getItemByID_spec reversedTagsDB [] "X").1 (by decide)
  obtain ⟨ry, hy, _, _, hitemy⟩ := (getItemByID_spec twoItemsDB [] "Y").1 (by decide)
  obtain ⟨rz, hz, hiffz, h404z, _⟩ := (getItemByID_spec twoItemsDB [] "Z").1 (by decide)
  refine ⟨?_, ?_, ?_, h404z.mpr (by decide)⟩
  · rw [hx, (hitemx (by decide) ⟨"X", "x", "http://x", false, "t0", "t0"⟩ (by decide) rfl).1]
    rfl
  · rw [hy, (hitemy (by decide) ⟨"Y", "y", "http://y", true, "t1", "t2"⟩ (by decide) rfl).1]
    rfl
  · rw [hz, hiffz.mpr (by decide)]

/-- C9, at an input where the code departs from the specification: item `X` exists and
carries the tags `a` and `b`.  When `Query` succeeds and the first `rows.Next()` fails,
the loop of `getItemByID` ends as if there were no rows and `rows.Err()` is never read:
the call returns nil without error and the handler answers 404 for an existing item.
When the second `rows.Next()` fails, the item comes back with tag `a` only.  Without a
failing step the same call returns `X` with both tags. -/
theorem getItemByID_failing_step :
    getItemByID twoItemsDB [Fault.ok, Fault.fail] "X" = .ok none ∧
    (handleGetItem twoItemsDB [Fault.ok, Fault.fail] "X").1 = 404 ∧
    getItemByID twoItemsDB [Fault.ok, Fault.ok, Fault.fail] "X" =
      .ok (some ⟨"X", "x", "http://x", false, "t0", "t0", some [⟨1, "a"⟩]⟩) ∧
    getItemByID twoItemsDB [] "X" =
      .ok (some ⟨"X", "x", "http://x", false, "t0", "t0", some [⟨1, "a"⟩, ⟨2, "b"⟩]⟩) ∧
    (∃ i ∈ twoItemsDB.items, i.id = "X") := by
  refine ⟨by rfl, by rfl, by rfl, by rfl, by decide⟩

/-! ## Resolving tag names -/

theorem TagsGrown.refl (db : DB) : TagsGrown db db := ⟨rfl, rfl, [], by simp⟩

theorem TagsGrown.trans {a b c : DB} (h1 : TagsGrown a b) (h2 : TagsGrown b c) :
    TagsGrown a c := by
  obtain ⟨i1, t1, e1, he1⟩ := h1
  obtain ⟨i2, t2, e2, he2⟩ := h2
  exact ⟨i2.trans i1, t2.trans t1, e1 ++ e2, by rw [he2, he1, List.append_assoc]⟩

theorem selectTagIDByName_append {db1 db2 : DB} {extra : List TagRow}
    (he : db2.tags = db1.tags ++ extra) {tagName : String}
    {tagID : Int} (h : selectTagIDByName tagName db1 = some tagID) :
    selectTagIDByName tagName db2 = some tagID := by
  unfold selectTagIDByName at h ⊢
  rw [he, List.find?_append]
  cases hf : List.find? (fun t => decide (t.name = tagName)) db1.tags with
  | none => simp [hf] at h
  | some t => simpa [hf] using h

theorem selectTagIDByName_grown {db1 db2 : DB} (hg : TagsGrown db1 db2) {tagName : String}
    {tagID : Int} (h : selectTagIDByName tagName db1 = some tagID) :
    selectTagIDByName tagName db2 = some tagID := by
  obtain ⟨_, _, extra, he⟩ := hg
  exact selectTagIDByName_append he h

theorem selectTagIDByName_iff {db : DB} (hu : TagNamesUnique db) {tagName : String}
    {tagID : Int} :
    selectTagIDByName tagName db = some tagID ↔ { id := tagID, name := tagName } ∈ db.tags := by
  constructor
  · exact selectTagIDByName_eq_some
  · intro hmem
    cases hs : selectTagIDByName tagName db with
    | none => exact absurd rfl (selectTagIDByName_eq_none.mp hs _ hmem)
    | some i =>
      have := eq_of_name_eq hu (selectTagIDByName_eq_some hs) hmem rfl
      simp only [TagRow.mk.injEq, and_true] at this
      rw [this]

theorem selectTagIDByName_none_of_append {db1 db2 : DB} {extra : List TagRow}
    (he : db2.tags = db1.tags ++ extra) {tagName : String}
    (h : selectTagIDByName tagName db2 = none) : selectTagIDByName tagName db1 = none := by
  cases hs : selectTagIDByName tagName db1 with
  | none => rfl
  | some i => rw [selectTagIDByName_append he hs] at h; cases h

theorem createOrGetTagByName_grown {tx tx' : TxState} {tagName : String} {tagID : Int}
    (h : createOrGetTagByName tx tagName = (.ok tagID, tx')) :
    TagsGrown tx.db tx'.db ∧ selectTagIDByName tagName tx'.db = some tagID := by
  rcases (createOrGetTagByName_ok h).2 with ⟨hs, hdb⟩ | ⟨hs, _, hdb⟩
  · rw [hdb]; exact ⟨TagsGrown.refl _, hs⟩
  · rw [hdb]
    refine ⟨⟨rfl, rfl, _, rfl⟩, ?_⟩
    unfold selectTagIDByName at hs ⊢
    simp only [Option.map_eq_none'] at hs
    simp [List.find?_append, hs]

theorem createOrGetTagByName_ids {tx tx' : TxState} {tagName : String} {tagID : Int}
    (h : createOrGetTagByName tx tagName = (.ok tagID, tx')) (hu : TagIDsUnique tx.db) :
    TagIDsUnique tx'.db := by
  rcases (createOrGetTagByName_ok h).2 with ⟨_, hdb⟩ | ⟨hs, hid, hdb⟩
  · rw [hdb]; exact hu
  · rw [hdb]
    unfold TagIDsUnique at *
    simp only [List.map_append, List.map_cons, List.map_nil]
    rw [List.nodup_append]
    refine ⟨hu, by simp, ?_⟩
    intro a ha hb
    simp only [List.mem_singleton] at hb
    subst hb
    simp only [List.mem_map] at ha
    obtain ⟨t, ht, hn⟩ := ha
    have := lt_nextTagID ht
    omega

/-- A successful run of the resolution loop only appends tag rows, and the ids it returns
are those the final tag table gives for the names. -/
theorem resolveTagNames_ok {names : List String} {ids : List Int} {tx tx' : TxState}
    (h : resolveTagNames names tx = (.ok ids, tx')) :
    tx'.snapshot = tx.snapshot ∧
    TagsGrown tx.db tx'.db ∧
    names.map (fun n => selectTagIDByName n tx'.db) = ids.map some := by
  induction names generalizing ids tx with
  | nil =>
    simp only [resolveTagNames, Prod.mk.injEq, Except.ok.injEq] at h
    obtain ⟨h1, h2⟩ := h
    subst h1 h2
    exact ⟨rfl, TagsGrown.refl _, rfl⟩
  | cons n rest ih =>
    simp only [resolveTagNames] at h
    rcases h1 : createOrGetTagByName tx n with ⟨r1, tx1⟩
    rw [h1] at h
    cases r1 with
    | error e => simp at h
    | ok id1 =>
      simp only at h
      rcases h2 : resolveTagNames rest tx1 with ⟨r2, tx2⟩
      rw [h2] at h
      cases r2 with
      | error e => simp at h
      | ok ids2 =>
        simp only [Prod.mk.injEq, Except.ok.injEq] at h
        obtain ⟨hids, htx⟩ := h
        subst hids htx
        obtain ⟨hg1, hs1⟩ := createOrGetTagByName_grown h1
        obtain ⟨hsn2, hg2, hs2⟩ := ih h2
        refine ⟨by rw [hsn2, (createOrGetTagByName_ok h1).1], hg1.trans hg2, ?_⟩
        simp only [List.map_cons, hs2, selectTagIDByName_grown hg2 hs1]

/-- The tag rows a run of the resolution loop appends carry names of the list that had no
tag row before. -/
theorem resolveTagNames_extra {names : List String} {ids : List Int} {tx tx' : TxState}
    (h : resolveTagNames names tx = (.ok ids, tx')) :
    ∃ extra, tx'.db.tags = tx.db.tags ++ extra ∧
      ∀ e ∈ extra, e.name ∈ names ∧ selectTagIDByName e.name tx.db = none := by
  induction names generalizing ids tx with
  | nil =>
    simp only [resolveTagNames, Prod.mk.injEq, Except.ok.injEq] at h
    obtain ⟨h1, h2⟩ := h
    subst h1 h2
    exact ⟨[], by simp, by simp⟩
  | cons n rest ih =>
    simp only [resolveTagNames] at h
    rcases h1 : createOrGetTagByName tx n with ⟨r1, tx1⟩
    rw [h1] at h
    cases r1 with
    | error e => simp at h
    | ok id1 =>
      simp only at h
      rcases h2 : resolveTagNames rest tx1 with ⟨r2, tx2⟩
      rw [h2] at h
      cases r2 with
      | error e => simp at h
      | ok ids2 =>
        simp only [Prod.mk.injEq, Except.ok.injEq] at h
        obtain ⟨hids, htx⟩ := h
        subst hids htx
        obtain ⟨extra2, he2, hx2⟩ := ih h2
        rcases (createOrGetTagByName_ok h1).2 with ⟨_, hdb⟩ | ⟨hs, _, hdb⟩
        · refine ⟨extra2, by rw [he2, hdb], ?_⟩
          intro e he
          refine ⟨List.mem_cons_of_mem _ (hx2 e he).1, ?_⟩
          have := (hx2 e he).2
          unfold selectTagIDByName at this ⊢
          rw [hdb] at this
          exact this
        · have he1 : tx1.db.tags = tx.db.tags ++ [{ id := id1, name := n }] := by rw [hdb]
          refine ⟨[{ id := id1, name := n }] ++ extra2, ?_, ?_⟩
          · rw [he2, he1, List.append_assoc]
          · intro e he
            rcases List.mem_append.mp he with he | he
            · simp only [List.mem_singleton] at he
              subst he
              exact ⟨by simp, hs⟩
            · exact ⟨List.mem_cons_of_mem _ (hx2 e he).1,
                selectTagIDByName_none_of_append he1 (hx2 e he).2⟩

theorem resolveTagNames_unique {names : List String} {ids : List Int} {tx tx' : TxState}
    (h : resolveTagNames names tx = (.ok ids, tx')) :
    (TagNamesUnique tx.db → TagNamesUnique tx'.db) ∧
    (TagIDsUnique tx.db → TagIDsUnique tx'.db) := by
  induction names generalizing ids tx with
  | nil =>
    simp only [resolveTagNames, Prod.mk.injEq, Except.ok.injEq] at h
    obtain ⟨h1, h2⟩ := h
    subst h1 h2
    exact ⟨id, id⟩
  | cons n rest ih =>
    simp only [resolveTagNames] at h
    rcases h1 : createOrGetTagByName tx n with ⟨r1, tx1⟩
    rw [h1] at h
    cases r1 with
    | error e => simp at h
    | ok id1 =>
      simp only at h
      rcases h2 : resolveTagNames rest tx1 with ⟨r2, tx2⟩
      rw [h2] at h
      cases r2 with
      | error e => simp at h
      | ok ids2 =>
        simp only [Prod.mk.injEq, Except.ok.injEq] at h
        obtain ⟨hids, htx⟩ := h
        subst hids htx
        exact ⟨fun hu => (ih h2).1 (createOrGetTagByName_unique h1 hu),
               fun hu => (ih h2).2 (createOrGetTagByName_ids h1 hu)⟩

theorem resolveTagNames_Keeps (names : List String) (tx : TxState) :
    Keeps tx (resolveTagNames names tx).2 := by
  induction names generalizing tx with
  | nil => exact Keeps.same tx
  | cons n rest ih =>
    simp only [resolveTagNames]
    have k1 := createOrGetTagByName_Keeps tx n
    rcases h1 : createOrGetTagByName tx n with ⟨r1, tx1⟩
    rw [h1] at k1
    cases r1 with
    | error e => exact k1
    | ok id1 =>
      simp only
      have hs1 := (createOrGetTagByName_ok h1).1
      have k2 := ih tx1
      rcases h2 : resolveTagNames rest tx1 with ⟨r2, tx2⟩
      rw [h2] at k2
      cases r2 with
      | error e => exact k1.next hs1 k2
      | ok ids2 => exact k1.next hs1 k2

theorem resolveTagNames_noFault (names : List String) {tx : TxState}
    (hf : NoFault tx.faults) :
    ∃ ids tx', resolveTagNames names tx = (.ok ids, tx') ∧ NoFault tx'.faults := by
  induction names generalizing tx with
  | nil => exact ⟨[], tx, rfl, hf⟩
  | cons n rest ih =>
    obtain ⟨id1, tx1, h1, hf1⟩ := createOrGetTagByName_noFault tx n hf
    obtain ⟨ids, tx2, h2, hf2⟩ := ih hf1
    refine ⟨id1 :: ids, tx2, ?_, hf2⟩
    simp only [resolveTagNames, h1, h2]

/-! ## The removal and addition loops -/

theorem removeStale_ok {itemID : String} {newTagIDs existing : List Int} {tx tx' : TxState}
    (h : removeStale itemID newTagIDs existing tx = (none, tx')) :
    tx'.snapshot = tx.snapshot ∧
    tx'.db = tx.db.withItemTags (tx.db.items_tags.filter (fun r =>
      ¬ (r.item_id = itemID ∧ r.tag_id ∈ existing ∧ r.tag_id ∉ newTagIDs))) := by
  induction existing generalizing tx with
  | nil =>
    simp only [removeStale, Prod.mk.injEq, true_and] at h
    subst h
    simp [DB.withItemTags]
  | cons t rest ih =>
    simp only [removeStale] at h
    split at h
    · rename_i hmem
      obtain ⟨hs, hd⟩ := ih h
      refine ⟨hs, ?_⟩
      rw [hd]
      congr 1
      apply List.filter_congr
      intro r _
      by_cases hr : r.tag_id = t
      · simp [hr, hmem]
      · simp [hr]
    · rename_i hmem
      rcases h1 : txExec tx (deleteItemTag itemID t) with ⟨r1, tx1⟩
      rw [h1] at h
      cases r1 with
      | some e => simp at h
      | none =>
        simp only at h
        obtain ⟨hd, hs1, _⟩ := txExec_ok h1
        simp only [deleteItemTag, Except.ok.injEq] at hd
        obtain ⟨hs, hd2⟩ := ih h
        refine ⟨by rw [hs, hs1], ?_⟩
        rw [hd2, ← hd]
        simp only [DB.withItemTags, List.filter_filter]
        congr 1
        apply List.filter_congr
        intro r _
        by_cases hr : r.tag_id = t
        · simp [hr, hmem]
          tauto
        · simp [hr]

theorem removeStale_Keeps (itemID : String) (newTagIDs existing : List Int) (tx : TxState) :
    Keeps tx (removeStale itemID newTagIDs existing tx).2 := by
  induction existing generalizing tx with
  | nil => exact Keeps.same tx
  | cons t rest ih =>
    simp only [removeStale]
    split
    · exact ih tx
    · have k1 := txExec_Keeps tx (deleteItemTag itemID t)
      rcases h1 : txExec tx (deleteItemTag itemID t) with ⟨r1, tx1⟩
      rw [h1] at k1
      cases r1 with
      | some e => exact k1
      | none => exact k1.next (txExec_ok h1).2.1 (ih tx1)

theorem removeStale_noFault (itemID : String) (newTagIDs existing : List Int)
    {tx : TxState} (hf : NoFault tx.faults) :
    ∃ tx', removeStale itemID newTagIDs existing tx = (none, tx') ∧ NoFault tx'.faults := by
  induction existing generalizing tx with
  | nil => exact ⟨tx, rfl, hf⟩
  | cons t rest ih =>
    simp only [removeStale]
    split
    · exact ih hf
    · obtain ⟨tx1, h1, _, _, hf1⟩ := txExec_noFault tx (deleteItemTag itemID t) hf rfl
      simp only [h1]
      exact ih hf1

theorem insertItemTag_ok {itemID : String} {tagID : Int} {db db' : DB}
    (h : insertItemTag itemID tagID db = .ok db') :
    { item_id := itemID, tag_id := tagID } ∉ db.items_tags ∧
    db' = db.withItemTags (db.items_tags ++ [{ item_id := itemID, tag_id := tagID }]) := by
  unfold insertItemTag at h
  split at h
  · simp at h
  · rename_i hpk
    simp only [Except.ok.injEq] at h
    exact ⟨hpk, h.symm⟩

/-- The rows the addition loop inserts: none of them was in the table. -/
theorem addMissing_ok {itemID : String} {existing newTagIDs : List Int} {tx tx' : TxState}
    (h : addMissing itemID existing newTagIDs tx = (none, tx')) :
    tx'.snapshot = tx.snapshot ∧
    tx'.db = tx.db.withItemTags (tx.db.items_tags ++
      (newTagIDs.filter (fun t => t ∉ existing)).map
        (fun t => { item_id := itemID, tag_id := t })) ∧
    (newTagIDs.filter (fun t => t ∉ existing)).Nodup ∧
    (∀ t ∈ newTagIDs, t ∉ existing →
      { item_id := itemID, tag_id := t } ∉ tx.db.items_tags) := by
  induction newTagIDs generalizing tx with
  | nil =>
    simp only [addMissing, Prod.mk.injEq, true_and] at h
    subst h
    simp [DB.withItemTags]
  | cons t rest ih =>
    simp only [addMissing] at h
    split at h
    · rename_i hmem
      obtain ⟨hs, h1, h2, h3⟩ := ih h
      refine ⟨hs, ?_, ?_, ?_⟩
      · rw [h1]; simp [hmem]
      · simpa [hmem] using h2
      · intro u hu hne
        rcases List.mem_cons.mp hu with rfl | hu
        · exact absurd hmem hne
        · exact h3 u hu hne
    · rename_i hmem
      rcases h1 : txExec tx (insertItemTag itemID t) with ⟨r1, tx1⟩
      rw [h1] at h
      cases r1 with
      | some e => simp at h
      | none =>
        simp only at h
        obtain ⟨hst, hs1, _⟩ := txExec_ok h1
        obtain ⟨hnotin, hd⟩ := insertItemTag_ok hst
        obtain ⟨hs, h2, h3, h4⟩ := ih h
        rw [hd] at h2 h4
        simp only [DB.withItemTags] at h2 h4
        refine ⟨by rw [hs, hs1], ?_, ?_, ?_⟩
        · rw [h2]; simp [hmem, DB.withItemTags]
        · rw [List.filter_cons_of_pos (by simpa using hmem), List.nodup_cons]
          refine ⟨?_, h3⟩
          intro hin
          have hin' := List.mem_filter.mp hin
          exact h4 t hin'.1 hmem (by simp)
        · intro u hu hne
          rcases List.mem_cons.mp hu with rfl | hu
          · exact hnotin
          · intro hx
            exact h4 u hu hne (by simp [hx])

theorem addMissing_Keeps (itemID : String) (existing newTagIDs : List Int) (tx : TxState) :
    Keeps tx (addMissing itemID existing newTagIDs tx).2 := by
  induction newTagIDs generalizing tx with
  | nil => exact Keeps.same tx
  | cons t rest ih =>
    simp only [addMissing]
    split
    · exact ih tx
    · have k1 := txExec_Keeps tx (insertItemTag itemID t)
      rcases h1 : txExec tx (insertItemTag itemID t) with ⟨r1, tx1⟩
      rw [h1] at k1
      cases r1 with
      | some e => exact k1
      | none => exact k1.next (txExec_ok h1).2.1 (ih tx1)

theorem addMissing_noFault (itemID : String) (existing : List Int) {ids : List Int}
    {tx : TxState} (hf : NoFault tx.faults) (hnd : ids.Nodup)
    (hpk : ∀ t ∈ ids, t ∉ existing → { item_id := itemID, tag_id := t } ∉ tx.db.items_tags) :
    ∃ tx', addMissing itemID existing ids tx = (none, tx') ∧ NoFault tx'.faults := by
  induction ids generalizing tx with
  | nil => exact ⟨tx, rfl, hf⟩
  | cons t rest ih =>
    rw [List.nodup_cons] at hnd
    simp only [addMissing]
    split
    · apply ih hf hnd.2
      intro u hu; exact hpk u (List.mem_cons_of_mem _ hu)
    · rename_i hmem
      have hins : insertItemTag itemID t tx.db =
          .ok (tx.db.withItemTags (tx.db.items_tags ++ [{ item_id := itemID, tag_id := t }])) := by
        unfold insertItemTag
        rw [if_neg (hpk t (by simp) hmem)]
        rfl
      obtain ⟨tx1, h1, hdb1, _, hf1⟩ := txExec_noFault tx _ hf hins
      simp only [h1]
      apply ih hf1 hnd.2
      intro u hu hne
      rw [hdb1]
      simp only [DB.withItemTags, List.mem_append, List.mem_singleton, ItemTagRow.mk.injEq,
        true_and, not_or]
      refine ⟨hpk u (List.mem_cons_of_mem _ hu) hne, ?_⟩
      rintro rfl
      exact hnd.1 hu

/-! ## updateItem -/

theorem foldl_applySet_buildSet (now : String) (title url : Option String)
    (starred : Option Bool) (r : ItemRow) :
    (buildSet title url starred ++ [SetClause.updatedAtNow]).foldl (applySet now) r =
      updatedRow now title url starred r := by
  cases title <;> cases url <;> cases starred <;> rfl

theorem applySet_id (now : String) (r : ItemRow) (c : SetClause) :
    (applySet now r c).id = r.id := by
  cases c <;> rfl

theorem foldl_applySet_id (now : String) (set : List SetClause) (r : ItemRow) :
    (set.foldl (applySet now) r).id = r.id := by
  induction set generalizing r with
  | nil => rfl
  | cons c rest ih => rw [List.foldl_cons, ih, applySet_id]

theorem mem_selectTagIDs {db : DB} {itemID : String} {tagID : Int} :
    tagID ∈ selectTagIDs itemID db ↔ { item_id := itemID, tag_id := tagID } ∈ db.items_tags := by
  unfold selectTagIDs
  simp only [List.mem_map, mem_itemTagsOf]
  constructor
  · rintro ⟨r, ⟨hr, hi⟩, ht⟩
    cases r
    simp_all
  · intro h
    exact ⟨_, ⟨h, rfl⟩, rfl⟩

theorem selectTagIDs_congr {db1 db2 : DB} (h : db2.items_tags = db1.items_tags)
    (itemID : String) : selectTagIDs itemID db2 = selectTagIDs itemID db1 := by
  unfold selectTagIDs itemTagsOf
  rw [h]

/-- The database a successful run of the body of `updateItem` leaves when the transaction
is still open at its end: the item rows of `itemID` updated, tag rows appended, and the
association table reconciled to the list `ids` the names resolve to, against the list
`existing` that the `SELECT tag_id` loop delivered (all the tag ids of the item when the
engine reports no failure, a beginning of them otherwise). -/
theorem updateItemTxn_ok {tx tx' : TxState} {now itemID : String} {title url : Option String}
    {starred : Option Bool} {names : List String}
    (h : updateItemTxn tx now itemID (buildSet title url starred) names = (none, tx'))
    (hopen : tx'.snapshot ≠ none) :
    tx'.snapshot = tx.snapshot ∧
    ∃ existing ids : List Int,
      existing <+: selectTagIDs itemID tx.db ∧
      (NoFault tx.faults → existing = selectTagIDs itemID tx.db) ∧
      names.map (fun n => selectTagIDByName n tx'.db) = ids.map some ∧
      tx'.db.items = tx.db.items.map
        (fun r => if r.id = itemID then updatedRow now title url starred r else r) ∧
      (∃ extra, tx'.db.tags = tx.db.tags ++ extra ∧
        ∀ e ∈ extra, e.name ∈ names ∧ selectTagIDByName e.name tx.db = none) ∧
      tx'.db.items_tags = reconciled tx.db itemID existing ids ∧
      (ids.filter (fun t => t ∉ existing)).Nodup ∧
      (∀ t ∈ ids, t ∉ existing → ({ item_id := itemID, tag_id := t } : ItemTagRow) ∉
        tx.db.items_tags.filter
          (fun r => ¬ (r.item_id = itemID ∧ r.tag_id ∈ existing ∧ r.tag_id ∉ ids))) ∧
      (tx.db.items_tags.Nodup → tx'.db.items_tags.Nodup) ∧
      (TagNamesUnique tx.db → TagNamesUnique tx'.db) ∧
      (TagIDsUnique tx.db → TagIDsUnique tx'.db) := by
  unfold updateItemTxn at h
  rcases h1 : txExec tx (updateItems now (buildSet title url starred ++
      [SetClause.updatedAtNow]) itemID) with ⟨r1, tx1⟩
  rw [h1] at h
  cases r1 with
  | some e => simp at h
  | none =>
    simp only at h
    obtain ⟨hd1, hs1, hf1⟩ := txExec_ok h1
    simp only [updateItems, foldl_applySet_buildSet, Except.ok.injEq] at hd1
    rcases h2 : txQueryRows tx1 (selectTagIDs itemID) with ⟨r2, tx2⟩
    rw [h2] at h
    cases r2 with
    | error e => simp at h
    | ok existing =>
      simp only at h
      obtain ⟨hpre, _, _, hdisj, hnf2, _⟩ := txQueryRows_ok h2
      rcases h3 : resolveTagNames names tx2 with ⟨r3, tx3⟩
      rw [h3] at h
      cases r3 with
      | error e => simp at h
      | ok ids =>
        simp only at h
        obtain ⟨hs3, ⟨hi3, hit3, _, _⟩, hsel⟩ := resolveTagNames_ok h3
        obtain ⟨extra, he3, hextra⟩ := resolveTagNames_extra h3
        obtain ⟨hun3, hui3⟩ := resolveTagNames_unique h3
        rcases h4 : removeStale itemID ids existing tx3 with ⟨r4, tx4⟩
        rw [h4] at h
        cases r4 with
        | some e => simp at h
        | none =>
          simp only at h
          obtain ⟨hs4, hd4⟩ := removeStale_ok h4
          obtain ⟨hs5, hd5, hnd, hfresh⟩ := addMissing_ok h
          have hsnap2 : tx'.snapshot = tx2.snapshot := by rw [hs5, hs4, hs3]
          have hsame : tx2.snapshot = tx1.snapshot ∧ tx2.db = tx1.db := by
            rcases hdisj with hsame | ⟨hnone, _⟩
            · exact hsame
            · exact absurd (hsnap2.trans hnone) hopen
          obtain ⟨hs2, hd2⟩ := hsame
          have hits1 : tx1.db.items_tags = tx.db.items_tags := by rw [← hd1]
          have hpre' : existing <+: selectTagIDs itemID tx.db := by
            rw [← selectTagIDs_congr hits1]; exact hpre
          have htags : tx'.db.tags = tx3.db.tags := by rw [hd5, hd4]; rfl
          have hsel' : names.map (fun n => selectTagIDByName n tx'.db) = ids.map some := by
            rw [← hsel]
            apply List.map_congr_left
            intro n _
            unfold selectTagIDByName
            rw [htags]
          have hrec : tx'.db.items_tags = reconciled tx.db itemID existing ids := by
            rw [hd5, hd4]
            simp only [DB.withItemTags, reconciled]
            rw [hit3, hd2, hits1]
          have hfresh' : ∀ t ∈ ids, t ∉ existing →
              ({ item_id := itemID, tag_id := t } : ItemTagRow) ∉ tx.db.items_tags.filter
                (fun r => ¬ (r.item_id = itemID ∧ r.tag_id ∈ existing ∧ r.tag_id ∉ ids)) := by
            intro t ht hne
            have := hfresh t ht hne
            rw [hd4] at this
            simp only [DB.withItemTags] at this
            rw [hit3, hd2, hits1] at this
            exact this
          refine ⟨by rw [hsnap2, hs2, hs1], existing, ids, hpre', ?_, hsel', ?_, ⟨extra, ?_, ?_⟩,
            hrec, hnd, hfresh', ?_, ?_, ?_⟩
          · intro hnf
            have hnf1 : NoFault tx1.faults := by
              obtain ⟨rest, hr, hfr⟩ := tick_noFault hnf
              rw [hf1, hr]; exact hfr
            rw [(hnf2 hnf1).1, selectTagIDs_congr hits1]
          · rw [hd5, hd4]
            simp only [DB.withItemTags]
            rw [hi3, hd2, ← hd1]
          · rw [htags, he3, hd2, ← hd1]
          · intro e he
            refine ⟨(hextra e he).1, ?_⟩
            have := (hextra e he).2
            unfold selectTagIDByName at this ⊢
            rw [hd2, ← hd1] at this
            exact this
          · intro hnodup
            rw [hd5]
            simp only [DB.withItemTags]
            rw [List.nodup_append]
            refine ⟨?_, ?_, ?_⟩
            · rw [hd4]
              simp only [DB.withItemTags]
              rw [hit3, hd2, hits1]
              exact hnodup.filter _
            · apply List.Nodup.map _ hnd
              intro a b hab
              simpa using hab
            · intro r hr1 hr2
              simp only [List.mem_filter, List.mem_map, decide_eq_true_eq] at hr2
              obtain ⟨t, ⟨ht, hnot⟩, rfl⟩ := hr2
              exact hfresh t ht (by simpa using hnot) hr1
          · intro hu
            have : TagNamesUnique tx3.db := hun3 (by
              unfold TagNamesUnique at hu ⊢
              rw [hd2, ← hd1]; exact hu)
            unfold TagNamesUnique at this ⊢
            rw [htags]; exact this
          · intro hu
            have : TagIDsUnique tx3.db := hui3 (by
              unfold TagIDsUnique at hu ⊢
              rw [hd2, ← hd1]; exact hu)
            unfold TagIDsUnique at this ⊢
            rw [htags]; exact this

/-- When the engine never rolls the transaction back on its own, the body of `updateItem`
keeps the rollback image in place, and leaves the transaction open when it succeeds. -/
theorem updateItemTxn_Keeps (tx : TxState) (now itemID : String) (set : List SetClause)
    (names : List String) (hna : Fault.abort ∉ tx.faults) :
    Keeps tx (updateItemTxn tx now itemID set names).2 ∧
    ((updateItemTxn tx now itemID set names).1 = none →
      (updateItemTxn tx now itemID set names).2.snapshot = tx.snapshot) := by
  unfold updateItemTxn
  have k1 := txExec_Keeps tx (updateItems now (set ++ [SetClause.updatedAtNow]) itemID)
  rcases h1 : txExec tx (updateItems now (set ++ [SetClause.updatedAtNow]) itemID)
    with ⟨r1, tx1⟩
  rw [h1] at k1
  cases r1 with
  | some e => exact ⟨k1, fun h => by simp at h⟩
  | none =>
    simp only
    have hs1 := (txExec_ok h1).2.1
    have hna1 : Fault.abort ∉ tx1.faults := fun hx => hna (k1.1 _ hx)
    have k2 := txQueryRows_keeps tx1 (selectTagIDs itemID)
    rcases h2 : txQueryRows tx1 (selectTagIDs itemID) with ⟨r2, tx2⟩
    rw [h2] at k2
    have k2' : Keeps tx1 tx2 := ⟨k2.1, fun s h => by rw [k2.2]; simp [Rollback, h]⟩
    cases r2 with
    | error e => exact ⟨k1.next hs1 k2', fun h => by simp at h⟩
    | ok existing =>
      simp only
      have hs2 := ((txQueryRows_ok h2).2.2.2.2.2 hna1).1
      have k12 := k1.next hs1 k2'
      have k3 := resolveTagNames_Keeps names tx2
      rcases h3 : resolveTagNames names tx2 with ⟨r3, tx3⟩
      rw [h3] at k3
      have k13 := k12.next (by rw [hs2, hs1]) k3
      cases r3 with
      | error e => exact ⟨k13, fun h => by simp at h⟩
      | ok ids =>
        simp only
        have hs3 := (resolveTagNames_ok h3).1
        have k4 := removeStale_Keeps itemID ids existing tx3
        rcases h4 : removeStale itemID ids existing tx3 with ⟨r4, tx4⟩
        rw [h4] at k4
        have k14 := k13.next (by rw [hs3, hs2, hs1]) k4
        cases r4 with
        | some e => exact ⟨k14, fun h => by simp at h⟩
        | none =>
          simp only
          have hs4 := (removeStale_ok h4).1
          have k5 := addMissing_Keeps itemID existing ids tx4
          refine ⟨k14.next (by rw [hs4, hs3, hs2, hs1]) k5, ?_⟩
          intro h5
          rcases h5' : addMissing itemID existing ids tx4 with ⟨r5, tx5⟩
          rw [h5'] at h5
          simp only at h5
          subst h5
          rw [(addMissing_ok h5').1, hs4, hs3, hs2, hs1]

theorem nodup_of_resolved {db : DB} (hui : TagIDsUnique db) {names : List String}
    {ids : List Int} (hn : names.Nodup)
    (hsel : names.map (fun n => selectTagIDByName n db) = ids.map some) : ids.Nodup := by
  have hmap : (names.map (fun n => selectTagIDByName n db)).Nodup := by
    apply List.Nodup.map_on _ hn
    intro x hx y _ hxy
    have hx' : selectTagIDByName x db ∈ ids.map some := by
      rw [← hsel]; exact List.mem_map_of_mem _ hx
    obtain ⟨a, _, ha⟩ := List.mem_map.mp hx'
    have h1 := selectTagIDByName_eq_some ha.symm
    have h2 := selectTagIDByName_eq_some (hxy ▸ ha.symm)
    have := List.inj_on_of_nodup_map hui h1 h2 rfl
    simp only [TagRow.mk.injEq, true_and] at this
    exact this
  rw [hsel] at hmap
  exact hmap.of_map

theorem exists_tag_of_resolved {db : DB} {names : List String} {ids : List Int}
    (hsel : names.map (fun n => selectTagIDByName n db) = ids.map some) :
    ∀ t ∈ ids, ∃ n ∈ names, { id := t, name := n } ∈ db.tags := by
  intro t ht
  have : some t ∈ names.map (fun n => selectTagIDByName n db) := by
    rw [hsel]; exact List.mem_map_of_mem _ ht
  obtain ⟨n, hn, hs⟩ := List.mem_map.mp this
  exact ⟨n, hn, selectTagIDByName_eq_some hs⟩

/-- With no fault, distinct names and the primary key of `tags` in force, the body of
`updateItem` succeeds and leaves the transaction open. -/
theorem updateItemTxn_noFault (tx : TxState) (now itemID : String) (set : List SetClause)
    {names : List String} (hf : NoFault tx.faults) (hn : names.Nodup)
    (hui : TagIDsUnique tx.db) :
    ∃ tx', updateItemTxn tx now itemID set names = (none, tx') ∧ NoFault tx'.faults ∧
      tx'.snapshot = tx.snapshot := by
  unfold updateItemTxn
  obtain ⟨tx1, h1, hdb1, hs1, hf1⟩ := txExec_noFault tx
    (updateItems now (set ++ [SetClause.updatedAtNow]) itemID) hf rfl
  obtain ⟨tx2, h2, hdb2, hs2, hf2⟩ := txQueryRows_noFault tx1 (selectTagIDs itemID) hf1
  obtain ⟨ids, tx3, h3, hf3⟩ := resolveTagNames_noFault names hf2
  obtain ⟨tx4, h4, hf4⟩ := removeStale_noFault itemID ids (selectTagIDs itemID tx1.db) hf3
  simp only [h1, h2, h3, h4]
  obtain ⟨hs3, ⟨hi3, hit3, _, _⟩, hsel⟩ := resolveTagNames_ok h3
  obtain ⟨_, hui3⟩ := resolveTagNames_unique h3
  obtain ⟨hs4, hd4⟩ := removeStale_ok h4
  have hui3' : TagIDsUnique tx3.db := hui3 (by
    unfold TagIDsUnique at hui ⊢
    rw [hdb2, hdb1]; exact hui)
  obtain ⟨tx5, h5, hf5⟩ := addMissing_noFault itemID (selectTagIDs itemID tx1.db) hf4
    (nodup_of_resolved hui3' hn hsel) (by
      intro t _ hne hmem
      apply hne
      rw [mem_selectTagIDs]
      rw [hd4] at hmem
      simp only [DB.withItemTags, List.mem_filter] at hmem
      rw [hit3, hdb2] at hmem
      exact hmem.1)
  refine ⟨tx5, h5, hf5, ?_⟩
  rw [(addMissing_ok h5).1, hs4, hs3, hs2, hs1]

theorem updateItem_ok_cases {db db' : DB} {faults : List Fault} {now itemID : String}
    {title url : Option String} {starred : Option Bool} {names : List String}
    (h : updateItem db faults now itemID title url starred names = (none, db')) :
    (buildSet title url starred = [] ∧ db' = db) ∨
    (buildSet title url starred ≠ [] ∧ ∃ tx tx', tx.db = db ∧
      (NoFault faults → NoFault tx.faults) ∧
      updateItemTxn tx now itemID (buildSet title url starred) names = (none, tx') ∧
      tx'.db = db' ∧ tx'.snapshot ≠ none) := by
  unfold updateItem at h
  cases h0 : Begin db faults with
  | error e => simp [h0] at h
  | ok tx =>
    simp only [h0] at h
    obtain ⟨hdb, hsnap, hsub⟩ := Begin_ok h0
    split at h
    · rename_i hlen
      left
      simp only [Prod.mk.injEq, true_and] at h
      refine ⟨List.length_eq_zero.mp hlen, ?_⟩
      rw [← h]
      simp [Rollback, hsnap]
    · rename_i hlen
      right
      refine ⟨fun hnil => hlen (by rw [hnil]; rfl), ?_⟩
      rcases h1 : updateItemTxn tx now itemID (buildSet title url starred) names
        with ⟨r1, tx1⟩
      rw [h1] at h
      cases r1 with
      | some e => simp at h
      | none =>
        simp only at h
        obtain ⟨hd, s, hs⟩ := Commit_ok h
        exact ⟨tx, tx1, hdb, fun hnf x hx => hnf x (hsub x hx), h1, hd.symm,
          by rw [hs]; simp⟩

/-- What a successful `updateItem` with at least one optional field did. -/
theorem updateItem_ok {db db' : DB} {faults : List Fault} {now itemID : String}
    {title url : Option String} {starred : Option Bool} {names : List String}
    (hset : buildSet title url starred ≠ [])
    (h : updateItem db faults now itemID title url starred names = (none, db')) :
    ∃ existing ids : List Int,
      existing <+: selectTagIDs itemID db ∧
      (NoFault faults → existing = selectTagIDs itemID db) ∧
      names.map (fun n => selectTagIDByName n db') = ids.map some ∧
      db'.items = db.items.map
        (fun r => if r.id = itemID then updatedRow now title url starred r else r) ∧
      (∃ extra, db'.tags = db.tags ++ extra ∧
        ∀ e ∈ extra, e.name ∈ names ∧ selectTagIDByName e.name db = none) ∧
      db'.items_tags = reconciled db itemID existing ids ∧
      (ids.filter (fun t => t ∉ existing)).Nodup ∧
      (∀ t ∈ ids, t ∉ existing → ({ item_id := itemID, tag_id := t } : ItemTagRow) ∉
        db.items_tags.filter
          (fun r => ¬ (r.item_id = itemID ∧ r.tag_id ∈ existing ∧ r.tag_id ∉ ids))) ∧
      (db.items_tags.Nodup → db'.items_tags.Nodup) ∧
      (TagNamesUnique db → TagNamesUnique db') ∧
      (TagIDsUnique db → TagIDsUnique db') := by
  rcases updateItem_ok_cases h with ⟨hnil, _⟩ | ⟨_, tx, tx', hdb, hnf, htxn, hdb', hopen⟩
  · exact absurd hnil hset
  · obtain ⟨_, existing, ids, h1, h2, rest⟩ := updateItemTxn_ok htxn hopen
    rw [hdb] at h1 h2 rest
    rw [hdb'] at rest
    exact ⟨existing, ids, h1, fun hf => h2 (hnf hf), rest⟩

/-- When the engine never rolls the transaction back on its own, an `updateItem` that
returns an error leaves the stored database as it was. -/
theorem updateItem_error_unchanged (db : DB) (faults : List Fault) (now itemID : String)
    (title url : Option String) (starred : Option Bool) (names : List String)
    (hna : Fault.abort ∉ faults)
    (h : (updateItem db faults now itemID title url starred names).1 ≠ none) :
    (updateItem db faults now itemID title url starred names).2 = db := by
  unfold updateItem at h ⊢
  cases h0 : Begin db faults with
  | error e => rfl
  | ok tx =>
    simp only [h0] at h ⊢
    obtain ⟨_, hsnap, hsub⟩ := Begin_ok h0
    split
    · simp [Rollback, hsnap]
    · rename_i hlen
      rw [if_neg hlen] at h
      obtain ⟨k, hok⟩ := updateItemTxn_Keeps tx now itemID (buildSet title url starred) names
        (fun hx => hna (hsub _ hx))
      rcases h1 : updateItemTxn tx now itemID (buildSet title url starred) names
        with ⟨r1, tx1⟩
      rw [h1] at h k hok
      cases r1 with
      | some e => exact k.2 db hsnap
      | none =>
        simp only at h ⊢
        exact Commit_error (by rw [hok rfl, hsnap]) h

theorem updateItem_noFault (db : DB) {faults : List Fault} (now itemID : String)
    (title url : Option String) (starred : Option Bool) {names : List String}
    (hf : NoFault faults) (hn : names.Nodup) (hui : TagIDsUnique db) :
    (updateItem db faults now itemID title url starred names).1 = none := by
  unfold updateItem
  obtain ⟨tx, h0, hdb, hsnap, hf0⟩ := Begin_noFault db hf
  simp only [h0]
  split
  · rfl
  · obtain ⟨tx1, h1, hf1, hs1⟩ := updateItemTxn_noFault tx now itemID
      (buildSet title url starred) hf0 hn (by rw [hdb]; exact hui)
    simp only [h1]
    rw [Commit_noFault hf1 (by rw [hs1, hsnap])]

theorem mem_reconciled_self {db : DB} {itemID : String} {ids : List Int} {tagID : Int} :
    { item_id := itemID, tag_id := tagID } ∈
      reconciled db itemID (selectTagIDs itemID db) ids ↔ tagID ∈ ids := by
  unfold reconciled
  simp only [List.mem_append, List.mem_filter, List.mem_map, decide_eq_true_eq,
    ItemTagRow.mk.injEq, true_and, exists_eq_right, not_and, not_not, decide_not,
    Bool.not_eq_true', decide_eq_false_iff_not]
  rw [mem_selectTagIDs]
  tauto

theorem mem_reconciled_other {db : DB} {itemID : String} {existing ids : List Int}
    {r : ItemTagRow} (hr : r.item_id ≠ itemID) :
    r ∈ reconciled db itemID existing ids ↔ r ∈ db.items_tags := by
  unfold reconciled
  simp only [List.mem_append, List.mem_filter, List.mem_map, decide_eq_true_eq]
  constructor
  · rintro (⟨hm, _⟩ | ⟨t, _, ht⟩)
    · exact hm
    · rw [← ht] at hr
      exact absurd rfl hr
  · intro hm
    left
    exact ⟨hm, by simp [hr]⟩

/-! ## updateItem: a second call with the same names -/

/-- On a state where item `itemID` is associated with exactly the tags the names resolve
to, a successful `updateItem` with those names leaves the tag and association tables as
they are. -/
theorem updateItem_fixpoint {db db2 : DB} {faults : List Fault} {now itemID : String}
    {title url : Option String} {starred : Option Bool} {names : List String}
    {ids : List Int}
    (hsel : names.map (fun n => selectTagIDByName n db) = ids.map some)
    (hmem : ∀ tagID, { item_id := itemID, tag_id := tagID } ∈ db.items_tags ↔ tagID ∈ ids)
    (h : updateItem db faults now itemID title url starred names = (none, db2)) :
    db2.items_tags = db.items_tags ∧ db2.tags = db.tags := by
  rcases updateItem_ok_cases h with ⟨_, hdb⟩ | ⟨hset, _⟩
  · rw [hdb]; exact ⟨rfl, rfl⟩
  · obtain ⟨existing, ids2, _, _, hsel2, _, ⟨extra, hext, hextra⟩, hit, _, hfresh, _⟩ :=
      updateItem_ok hset h
    have hnil : extra = [] := by
      cases extra with
      | nil => rfl
      | cons e rest =>
        exfalso
        obtain ⟨hen, hnone⟩ := hextra e (by simp)
        have : selectTagIDByName e.name db ∈ ids.map some := by
          rw [← hsel]; exact List.mem_map_of_mem _ hen
        rw [hnone] at this
        simp at this
    rw [hnil, List.append_nil] at hext
    have hids : ids2 = ids := by
      apply List.map_injective_iff.mpr (Option.some_injective Int)
      rw [← hsel2, ← hsel]
      apply List.map_congr_left
      intro n _
      unfold selectTagIDByName
      rw [hext]
    subst hids
    refine ⟨?_, hext⟩
    rw [hit]
    unfold reconciled
    have hkeep : ∀ r ∈ db.items_tags,
        ¬ (r.item_id = itemID ∧ r.tag_id ∈ existing ∧ r.tag_id ∉ ids2) := by
      rintro r hr ⟨hi, _, hn⟩
      apply hn
      apply (hmem r.tag_id).mp
      rw [← hi]
      exact hr
    have h1 : db.items_tags.filter
        (fun r => ¬ (r.item_id = itemID ∧ r.tag_id ∈ existing ∧ r.tag_id ∉ ids2)) =
        db.items_tags := by
      rw [List.filter_eq_self]
      intro r hr
      exact decide_eq_true (hkeep r hr)
    have h2 : ids2.filter (fun t => t ∉ existing) = [] := by
      rw [List.filter_eq_nil_iff]
      intro t ht hne
      have hne' : t ∉ existing := by simpa using hne
      apply hfresh t ht hne'
      rw [h1]
      exact (hmem t).mpr ht
    rw [h1, h2]
    simp

/-! ## updateItem: convergence of the tag set -/

theorem mem_tagsOf_names {db : DB} {itemID n : String} :
    n ∈ (tagsOf db itemID).map (fun t => t.Name) ↔
      ∃ tagID, { item_id := itemID, tag_id := tagID } ∈ db.items_tags ∧
        { id := tagID, name := n } ∈ db.tags := by
  unfold tagsOf
  simp only [List.mem_map, List.mem_flatMap, List.mem_filter, decide_eq_true_eq,
    mem_itemTagsOf]
  constructor
  · rintro ⟨t, ⟨it, ⟨hit, hid⟩, u, ⟨hu, hui⟩, rfl⟩, rfl⟩
    refine ⟨it.tag_id, ?_, ?_⟩
    · rw [← hid]; exact hit
    · rw [← hui]; exact hu
  · rintro ⟨tagID, hit, ht⟩
    exact ⟨_, ⟨_, ⟨hit, rfl⟩, _, ⟨ht, rfl⟩, rfl⟩, rfl⟩

theorem mem_ids_iff {db : DB} (hun : TagNamesUnique db) {names : List String}
    {ids : List Int} (hsel : names.map (fun n => selectTagIDByName n db) = ids.map some)
    {tagID : Int} :
    tagID ∈ ids ↔ ∃ n ∈ names, { id := tagID, name := n } ∈ db.tags := by
  constructor
  · exact exists_tag_of_resolved hsel tagID
  · rintro ⟨n, hn, hmem⟩
    have h1 : selectTagIDByName n db ∈ ids.map some := by
      rw [← hsel]; exact List.mem_map_of_mem _ hn
    rw [(selectTagIDByName_iff hun).mpr hmem] at h1
    simpa using h1

/-- Reconciliation by `updateItem` when at least one of `title`, `url`, `starred` is
supplied, on a database that satisfies its key constraints.  When the engine reports no
failure the call succeeds for distinct names, and after a successful call the item is
associated with exactly the tags named in `names`, and a further successful call with the
same names changes neither the association table nor the tag table.  After every
successful call the associations of other items are as before and the key constraints
still hold. -/
theorem updateItem_converges (db : DB) (faults : List Fault) (now itemID : String)
    (title url : Option String) (starred : Option Bool) (names : List String)
    (hset : buildSet title url starred ≠ [])
    (hun : TagNamesUnique db) (hui : TagIDsUnique db) (hnd : db.items_tags.Nodup) :
    (NoFault faults → names.Nodup →
      (updateItem db faults now itemID title url starred names).1 = none) ∧
    ∀ db', updateItem db faults now itemID title url starred names = (none, db') →
      (NoFault faults →
        (∀ tagID, { item_id := itemID, tag_id := tagID } ∈ db'.items_tags ↔
          ∃ n ∈ names, { id := tagID, name := n } ∈ db'.tags) ∧
        (∀ n, n ∈ (tagsOf db' itemID).map (fun t => t.Name) ↔ n ∈ names) ∧
        ∀ faults2 now2 title2 url2 starred2 db'',
          updateItem db' faults2 now2 itemID title2 url2 starred2 names = (none, db'') →
          db''.items_tags = db'.items_tags ∧ db''.tags = db'.tags) ∧
      (∀ r : ItemTagRow, r.item_id ≠ itemID → (r ∈ db'.items_tags ↔ r ∈ db.items_tags)) ∧
      db'.items_tags.Nodup ∧ TagNamesUnique db' ∧ TagIDsUnique db' := by
  refine ⟨fun hf hn => updateItem_noFault db now itemID title url starred hf hn hui, ?_⟩
  intro db' h
  obtain ⟨existing, ids, _, hfull, hsel, _, _, hit, _, _, hnd', hun', hui'⟩ :=
    updateItem_ok hset h
  refine ⟨?_, ?_, hnd' hnd, hun' hun, hui' hui⟩
  · intro hf
    have hmem : ∀ tagID,
        { item_id := itemID, tag_id := tagID } ∈ db'.items_tags ↔ tagID ∈ ids := by
      intro tagID
      rw [hit, hfull hf]
      exact mem_reconciled_self
    refine ⟨?_, ?_, ?_⟩
    · intro tagID
      rw [hmem, mem_ids_iff (hun' hun) hsel]
    · intro n
      rw [mem_tagsOf_names]
      constructor
      · rintro ⟨tagID, h1, h2⟩
        obtain ⟨n', hn', h3⟩ := (mem_ids_iff (hun' hun) hsel).mp ((hmem tagID).mp h1)
        have := List.inj_on_of_nodup_map (hui' hui) h2 h3 rfl
        simp only [TagRow.mk.injEq, true_and] at this
        rw [this]; exact hn'
      · intro hn
        have h1 : selectTagIDByName n db' ∈ ids.map some := by
          rw [← hsel]; exact List.mem_map_of_mem _ hn
        obtain ⟨tagID, ht, hs⟩ := List.mem_map.mp h1
        exact ⟨tagID, (hmem tagID).mpr ht, selectTagIDByName_eq_some hs.symm⟩
    · intro faults2 now2 title2 url2 starred2 db'' h2
      exact updateItem_fixpoint hsel hmem h2
  · intro r hr
    rw [hit]
    exact mem_reconciled_other hr

/-! ## createItem -/

/-- What a successful run of the tag loop of `createItem` did. -/
theorem createItemTags_ok {itemID : String} {names : List String} {tx tx' : TxState}
    (h : createItemTags itemID names tx = (none, tx')) :
    tx'.snapshot = tx.snapshot ∧
    ∃ ids : List Int,
      names.map (fun n => selectTagIDByName n tx'.db) = ids.map some ∧
      tx'.db.items_tags =
        tx.db.items_tags ++ ids.map (fun t => { item_id := itemID, tag_id := t }) ∧
      ids.Nodup ∧
      (∀ t ∈ ids, { item_id := itemID, tag_id := t } ∉ tx.db.items_tags) ∧
      tx'.db.items = tx.db.items ∧
      (∃ extra, tx'.db.tags = tx.db.tags ++ extra) ∧
      (TagNamesUnique tx.db → TagNamesUnique tx'.db) := by
  induction names generalizing tx with
  | nil =>
    simp only [createItemTags, Prod.mk.injEq, true_and] at h
    subst h
    exact ⟨rfl, [], rfl, by simp, List.nodup_nil, by simp, rfl, ⟨[], by simp⟩, id⟩
  | cons n rest ih =>
    simp only [createItemTags] at h
    rcases h1 : createOrGetTagByName tx n with ⟨r1, tx1⟩
    rw [h1] at h
    cases r1 with
    | error e => simp at h
    | ok id1 =>
      simp only at h
      rcases h2 : txExec tx1 (insertItemTag itemID id1) with ⟨r2, tx2⟩
      rw [h2] at h
      cases r2 with
      | some e => simp at h
      | none =>
        simp only at h
        obtain ⟨⟨hi1, hit1, extra1, he1⟩, hs1⟩ := createOrGetTagByName_grown h1
        have hsn1 := (createOrGetTagByName_ok h1).1
        obtain ⟨hst2, hsn2, _⟩ := txExec_ok h2
        obtain ⟨hpk, hdb2⟩ := insertItemTag_ok hst2
        obtain ⟨hsn, ids, hsel, hit, hnd, hfresh, hitems, ⟨extra2, he2⟩, hun⟩ := ih h
        have htags2 : tx2.db.tags = tx1.db.tags := by rw [hdb2]; rfl
        have hit2 : tx2.db.items_tags =
            tx.db.items_tags ++ [{ item_id := itemID, tag_id := id1 }] := by
          rw [hdb2, ← hit1]; rfl
        refine ⟨by rw [hsn, hsn2, hsn1], id1 :: ids, ?_, ?_, ?_, ?_, ?_,
          ⟨extra1 ++ extra2, ?_⟩, ?_⟩
        · simp only [List.map_cons, hsel]
          congr 1
          have he : tx'.db.tags = tx1.db.tags ++ extra2 := by rw [he2, htags2]
          exact selectTagIDByName_append he hs1
        · rw [hit, hit2]; simp
        · rw [List.nodup_cons]
          refine ⟨fun hmem => hfresh id1 hmem ?_, hnd⟩
          rw [hit2]; simp
        · intro t ht
          rcases List.mem_cons.mp ht with rfl | ht
          · rw [← hit1]; exact hpk
          · intro hmem
            apply hfresh t ht
            rw [hit2]
            exact List.mem_append_left _ hmem
        · rw [hitems, hdb2]
          exact hi1
        · rw [he2, htags2, he1, List.append_assoc]
        · intro hu
          apply hun
          have := createOrGetTagByName_unique h1 hu
          unfold TagNamesUnique at this ⊢
          rw [htags2]; exact this

theorem createItemTags_Keeps (itemID : String) (names : List String) (tx : TxState) :
    Keeps tx (createItemTags itemID names tx).2 := by
  induction names generalizing tx with
  | nil => exact Keeps.same tx
  | cons n rest ih =>
    simp only [createItemTags]
    have k1 := createOrGetTagByName_Keeps tx n
    rcases h1 : createOrGetTagByName tx n with ⟨r1, tx1⟩
    rw [h1] at k1
    cases r1 with
    | error e => exact k1
    | ok id1 =>
      simp only
      have hs1 := (createOrGetTagByName_ok h1).1
      have k2 := txExec_Keeps tx1 (insertItemTag itemID id1)
      rcases h2 : txExec tx1 (insertItemTag itemID id1) with ⟨r2, tx2⟩
      rw [h2] at k2
      cases r2 with
      | some e => exact k1.next hs1 k2
      | none =>
        exact (k1.next hs1 k2).next (by rw [(txExec_ok h2).2.1, hs1]) (ih tx2)

theorem createItem_ok_cases {db db' : DB} {faults : List Fault}
    {now newID title url : String} {names : List String}
    (h : createItem db faults now newID title url names = (none, db')) :
    ∃ tx tx', insertItem now newID title url false db = .ok tx.db ∧
      createItemTags newID names tx = (none, tx') ∧ tx'.db = db' := by
  unfold createItem at h
  cases h0 : Begin db faults with
  | error e => simp [h0] at h
  | ok tx0 =>
    simp only [h0] at h
    obtain ⟨hdb, _, _⟩ := Begin_ok h0
    rcases h1 : txExec tx0 (insertItem now newID title url false) with ⟨r1, tx1⟩
    rw [h1] at h
    cases r1 with
    | some e => simp at h
    | none =>
      simp only at h
      rcases h2 : txQueryRow tx1 (fun _ => ()) with ⟨r2, tx2⟩
      rw [h2] at h
      cases r2 with
      | error e => simp at h
      | ok u =>
        simp only at h
        rcases h3 : createItemTags newID names tx2 with ⟨r3, tx3⟩
        rw [h3] at h
        cases r3 with
        | some e => simp at h
        | none =>
          simp only at h
          refine ⟨tx2, tx3, ?_, h3, (Commit_ok h).1.symm⟩
          rw [(txQueryRow_ok h2).2.1, ← hdb]
          exact (txExec_ok h1).1

/-- An error return of `createItem` leaves the stored database as it was, whatever the
engine does. -/
theorem createItem_error_unchanged (db : DB) (faults : List Fault)
    (now newID title url : String) (names : List String)
    (h : (createItem db faults now newID title url names).1 ≠ none) :
    (createItem db faults now newID title url names).2 = db := by
  unfold createItem at h ⊢
  cases h0 : Begin db faults with
  | error e => rfl
  | ok tx0 =>
    simp only [h0] at h ⊢
    obtain ⟨_, hsnap, _⟩ := Begin_ok h0
    have k1 := txExec_Keeps tx0 (insertItem now newID title url false)
    rcases h1 : txExec tx0 (insertItem now newID title url false) with ⟨r1, tx1⟩
    rw [h1] at h k1
    cases r1 with
    | some e => exact k1.2 db hsnap
    | none =>
      simp only at h ⊢
      have hs1 := (txExec_ok h1).2.1
      have k2 := txQueryRow_Keeps tx1 (fun _ => ())
      rcases h2 : txQueryRow tx1 (fun _ => ()) with ⟨r2, tx2⟩
      rw [h2] at h k2
      cases r2 with
      | error e => exact (k1.next hs1 k2).2 db hsnap
      | ok u =>
        simp only at h ⊢
        have hs2 := (txQueryRow_ok h2).2.2.1
        have k3 := createItemTags_Keeps newID names tx2
        rcases h3 : createItemTags newID names tx2 with ⟨r3, tx3⟩
        rw [h3] at h k3
        cases r3 with
        | some e =>
          exact ((k1.next hs1 k2).next (by rw [hs2, hs1]) k3).2 db hsnap
        | none =>
          simp only at h ⊢
          exact Commit_error (by rw [(createItemTags_ok h3).1, hs2, hs1, hsnap]) h

/-- Go `createItem` fails on a list with a repeated name. -/
theorem createItem_duplicate_fails (db : DB) (faults : List Fault)
    (now newID title url : String) {names : List String} (hdup : ¬ names.Nodup) :
    (createItem db faults now newID title url names).1 ≠ none := by
  intro hnone
  have h : createItem db faults now newID title url names =
      (none, (createItem db faults now newID title url names).2) := by
    rw [← hnone]
  obtain ⟨tx, tx', _, hloop, _⟩ := createItem_ok_cases h
  obtain ⟨_, ids, hsel, _, hnd, _⟩ := createItemTags_ok hloop
  apply hdup
  have : (names.map (fun n => selectTagIDByName n tx'.db)).Nodup := by
    rw [hsel]
    exact hnd.map (Option.some_injective Int)
  exact this.of_map

/-! ## tagItem -/

theorem tagItemTxn_Keeps (tx : TxState) (itemID tagName : String) :
    Keeps tx (tagItemTxn tx itemID tagName).2 := by
  unfold tagItemTxn
  have k1 := createOrGetTagByName_Keeps tx tagName
  rcases h1 : createOrGetTagByName tx tagName with ⟨r1, tx1⟩
  rw [h1] at k1
  cases r1 with
  | error e => exact k1
  | ok tagID =>
    exact k1.next (createOrGetTagByName_ok h1).1 (txExec_Keeps tx1 _)

theorem tagItemTxn_ok {tx tx' : TxState} {itemID tagName : String}
    (h : tagItemTxn tx itemID tagName = (none, tx')) :
    tx'.snapshot = tx.snapshot ∧ tx'.db.items = tx.db.items ∧
    ∃ tagID, { id := tagID, name := tagName } ∈ tx'.db.tags ∧
      tx'.db.items_tags = tx.db.items_tags ++ [{ item_id := itemID, tag_id := tagID }] := by
  unfold tagItemTxn at h
  rcases h1 : createOrGetTagByName tx tagName with ⟨r1, tx1⟩
  rw [h1] at h
  cases r1 with
  | error e => simp at h
  | ok tagID =>
    simp only at h
    obtain ⟨hi, hit, _, _⟩ := (createOrGetTagByName_grown h1).1
    have hmem := createOrGetTagByName_mem h1
    obtain ⟨hst, hsn, _⟩ := txExec_ok h
    obtain ⟨_, hd⟩ := insertItemTag_ok hst
    rw [hd]
    exact ⟨by rw [hsn, (createOrGetTagByName_ok h1).1], hi, tagID, hmem, by rw [← hit]; rfl⟩

theorem tagItem_ok {db db' : DB} {faults : List Fault} {itemID tagName : String}
    (h : tagItem db faults itemID tagName = (none, db')) :
    db'.items = db.items ∧
    ∃ tagID, { id := tagID, name := tagName } ∈ db'.tags ∧
      db'.items_tags = db.items_tags ++ [{ item_id := itemID, tag_id := tagID }] := by
  unfold tagItem at h
  cases h0 : Begin db faults with
  | error e => simp [h0] at h
  | ok tx =>
    simp only [h0] at h
    obtain ⟨hdb, _, _⟩ := Begin_ok h0
    rcases h1 : tagItemTxn tx itemID tagName with ⟨r1, tx1⟩
    rw [h1] at h
    cases r1 with
    | some e => simp at h
    | none =>
      simp only at h
      have := tagItemTxn_ok h1
      rw [hdb] at this
      rw [(Commit_ok h).1]
      exact this.2

/-- An error return of `tagItem` leaves the stored database as it was, whatever the
engine does. -/
theorem tagItem_error_unchanged (db : DB) (faults : List Fault) (itemID tagName : String)
    (h : (tagItem db faults itemID tagName).1 ≠ none) :
    (tagItem db faults itemID tagName).2 = db := by
  unfold tagItem at h ⊢
  cases h0 : Begin db faults with
  | error e => rfl
  | ok tx =>
    simp only [h0] at h ⊢
    obtain ⟨_, hsnap, _⟩ := Begin_ok h0
    have k := tagItemTxn_Keeps tx itemID tagName
    rcases h1 : tagItemTxn tx itemID tagName with ⟨r1, tx1⟩
    rw [h1] at h k
    cases r1 with
    | some e => exact k.2 db hsnap
    | none =>
      simp only at h ⊢
      exact Commit_error (by rw [(tagItemTxn_ok h1).1, hsnap]) h

/-! ## updateItem on a list with a repeated name -/

theorem count_le_count_resolved (f : String → Option Int) {names : List String}
    {ids : List Int} (hsel : names.map f = ids.map some) {n : String} {a : Int}
    (hn : f n = some a) : names.count n ≤ ids.count a := by
  induction names generalizing ids with
  | nil => simp
  | cons x xs ih =>
    cases ids with
    | nil => simp at hsel
    | cons i is =>
      simp only [List.map_cons, List.cons.injEq] at hsel
      have := ih hsel.2
      rw [List.count_cons, List.count_cons]
      by_cases hx : x = n
      · have hi : i = a := by
          have h1 := hsel.1
          rw [hx, hn] at h1
          exact (Option.some.inj h1).symm
        simp [hx, hi, this]
      · simp only [beq_iff_eq, hx, if_false]
        omega

/-- Go `updateItem` (with a field supplied) fails on a list that repeats a name whose tag
the item does not carry yet, whatever the engine does. -/
theorem updateItem_duplicate_fails (db : DB) (faults : List Fault) (now itemID : String)
    (title url : Option String) (starred : Option Bool) {names : List String} {n : String}
    (hset : buildSet title url starred ≠ []) (hui : TagIDsUnique db)
    (hdup : 2 ≤ names.count n)
    (href : ∀ r ∈ db.items_tags, r.item_id = itemID → ∃ t ∈ db.tags, t.id = r.tag_id)
    (hfree : ∀ t ∈ db.tags, t.name = n → { item_id := itemID, tag_id := t.id } ∉ db.items_tags) :
    (updateItem db faults now itemID title url starred names).1 ≠ none := by
  intro hnone
  have h : updateItem db faults now itemID title url starred names =
      (none, (updateItem db faults now itemID title url starred names).2) := by
    rw [← hnone]
  generalize (updateItem db faults now itemID title url starred names).2 = db' at h
  obtain ⟨existing, ids, hpre, _, hsel, _, ⟨extra, hext, _⟩, _, hndf, _, _, _, hui'⟩ :=
    updateItem_ok hset h
  have hn : n ∈ names := List.count_pos_iff.mp (by omega)
  have h1 : selectTagIDByName n db' ∈ ids.map some := by
    rw [← hsel]; exact List.mem_map_of_mem (fun n => selectTagIDByName n db') hn
  obtain ⟨a, _, hs⟩ := List.mem_map.mp h1
  have hrow := selectTagIDByName_eq_some hs.symm
  have hcount : 2 ≤ ids.count a := by
    have hc1 := count_le_count_resolved (fun n => selectTagIDByName n db') hsel hs.symm
    omega
  have hnot : a ∉ existing := by
    intro hmem0
    have hmem := hpre.subset hmem0
    rw [mem_selectTagIDs] at hmem
    obtain ⟨t, ht, hid⟩ := href _ hmem rfl
    have ht' : t ∈ db'.tags := by rw [hext]; exact List.mem_append_left _ ht
    have := List.inj_on_of_nodup_map (hui' hui) ht' hrow hid
    have hname : t.name = n := by rw [this]
    have hfr := hfree t ht hname
    simp only at hid
    rw [hid] at hfr
    exact hfr hmem
  have hc2 : (ids.filter (fun t => t ∉ existing)).count a = ids.count a := by
    rw [List.count_filter]
    simpa using hnot
  have := List.nodup_iff_count_le_one.mp hndf a
  omega

/-! ## The items table under statements that do not write it -/

theorem afterFault_ItemsAre {s : List ItemRow} {tx : TxState} (h : ItemsAre s tx)
    (f : Fault) (rest : List Fault) : ItemsAre s (afterFault tx f rest) := by
  obtain ⟨h1, h2⟩ := h
  cases f
  · exact ⟨h1, h2⟩
  · exact ⟨h1, h2⟩
  · exact ⟨h2, h2⟩

theorem ItemsAre.step {s : List ItemRow} {tx : TxState} (h : ItemsAre s tx) {db : DB}
    (hd : db.items = s) (rest : List Fault) :
    ItemsAre s { db := db, snapshot := tx.snapshot, faults := rest } := by
  refine ⟨hd, ?_⟩
  have h2 := h.2
  unfold Rollback at h2 ⊢
  cases hsn : tx.snapshot with
  | none => exact hd
  | some image => rw [hsn] at h2; exact h2

theorem txExec_ItemsAre {s : List ItemRow} {tx : TxState} {stmt : DB → Except DBError DB}
    (hst : ∀ db', stmt tx.db = .ok db' → db'.items = tx.db.items) (h : ItemsAre s tx) :
    ItemsAre s (txExec tx stmt).2 := by
  unfold txExec
  rcases ht : tick tx.faults with ⟨f, rest⟩
  cases f with
  | ok =>
    simp only
    cases hs : stmt tx.db with
    | error e => exact h.step h.1 rest
    | ok db => exact h.step ((hst _ hs).trans h.1) rest
  | fail => exact afterFault_ItemsAre h _ rest
  | abort => exact afterFault_ItemsAre h _ rest

theorem insertTag_items {tagName : String} {db db' : DB} {i : Int}
    (h : insertTag tagName db = .ok (i, db')) : db'.items = db.items := by
  unfold insertTag at h
  split at h
  · simp at h
  · simp only [Except.ok.injEq, Prod.mk.injEq] at h
    rw [← h.2]

theorem txQueryRow_ItemsAre {α : Type} {s : List ItemRow} {tx : TxState} (q : DB → α)
    (h : ItemsAre s tx) : ItemsAre s (txQueryRow tx q).2 := by
  unfold txQueryRow
  rcases ht : tick tx.faults with ⟨f, rest⟩
  cases f with
  | ok => exact h.step h.1 rest
  | fail => exact afterFault_ItemsAre h _ rest
  | abort => exact afterFault_ItemsAre h _ rest

theorem txQueryRows_ItemsAre {α : Type} {s : List ItemRow} {tx : TxState} (q : DB → List α)
    (h : ItemsAre s tx) : ItemsAre s (txQueryRows tx q).2 := by
  unfold txQueryRows
  rcases ht : tick tx.faults with ⟨f, rest⟩
  cases f with
  | ok =>
    simp only
    split
    · exact ⟨h.2, h.2⟩
    · exact h.step h.1 _
  | fail => exact afterFault_ItemsAre h _ rest
  | abort => exact afterFault_ItemsAre h _ rest

theorem createOrGetTagByName_ItemsAre {s : List ItemRow} {tx : TxState} (tagName : String)
    (h : ItemsAre s tx) : ItemsAre s (createOrGetTagByName tx tagName).2 := by
  unfold createOrGetTagByName
  have k1 := txQueryRow_ItemsAre (selectTagIDByName tagName) h
  rcases h1 : txQueryRow tx (selectTagIDByName tagName) with ⟨r1, tx1⟩
  rw [h1] at k1
  cases r1 with
  | error e => exact k1
  | ok found =>
    cases found with
    | some i => exact k1
    | none =>
      simp only
      rcases ht : tick tx1.faults with ⟨f, rest⟩
      cases f with
      | ok =>
        simp only
        cases hins : insertTag tagName tx1.db with
        | error e => exact k1.step k1.1 rest
        | ok r => exact k1.step ((insertTag_items hins).trans k1.1) rest
      | fail => exact afterFault_ItemsAre k1 _ rest
      | abort => exact afterFault_ItemsAre k1 _ rest

theorem resolveTagNames_ItemsAre {s : List ItemRow} (names : List String) {tx : TxState}
    (h : ItemsAre s tx) : ItemsAre s (resolveTagNames names tx).2 := by
  induction names generalizing tx with
  | nil => exact h
  | cons n rest ih =>
    simp only [resolveTagNames]
    have k1 := createOrGetTagByName_ItemsAre n h
    rcases h1 : createOrGetTagByName tx n with ⟨r1, tx1⟩
    rw [h1] at k1
    cases r1 with
    | error e => exact k1
    | ok id1 =>
      simp only
      have k2 := ih k1
      rcases h2 : resolveTagNames rest tx1 with ⟨r2, tx2⟩
      rw [h2] at k2
      cases r2 with
      | error e => exact k2
      | ok ids => exact k2

theorem removeStale_ItemsAre {s : List ItemRow} (itemID : String)
    (newTagIDs existing : List Int) {tx : TxState} (h : ItemsAre s tx) :
    ItemsAre s (removeStale itemID newTagIDs existing tx).2 := by
  induction existing generalizing tx with
  | nil => exact h
  | cons t rest ih =>
    simp only [removeStale]
    split
    · exact ih h
    · have k1 : ItemsAre s (txExec tx (deleteItemTag itemID t)).2 :=
        txExec_ItemsAre (fun db' hq => by
          simp only [deleteItemTag, Except.ok.injEq] at hq
          rw [← hq]) h
      rcases h1 : txExec tx (deleteItemTag itemID t) with ⟨r1, tx1⟩
      rw [h1] at k1
      cases r1 with
      | some e => exact k1
      | none => exact ih k1

theorem insertItemTag_items {itemID : String} {tagID : Int} {db : DB} (db' : DB)
    (h : insertItemTag itemID tagID db = .ok db') : db'.items = db.items := by
  rw [(insertItemTag_ok h).2]
  rfl

theorem addMissing_ItemsAre {s : List ItemRow} (itemID : String)
    (existing newTagIDs : List Int) {tx : TxState} (h : ItemsAre s tx) :
    ItemsAre s (addMissing itemID existing newTagIDs tx).2 := by
  induction newTagIDs generalizing tx with
  | nil => exact h
  | cons t rest ih =>
    simp only [addMissing]
    split
    · exact ih h
    · have k1 : ItemsAre s (txExec tx (insertItemTag itemID t)).2 :=
        txExec_ItemsAre insertItemTag_items h
      rcases h1 : txExec tx (insertItemTag itemID t) with ⟨r1, tx1⟩
      rw [h1] at k1
      cases r1 with
      | some e => exact k1
      | none => exact ih k1

/-! ## updateItem on an id that is not in the items table -/

theorem map_update_of_unknown {l : List ItemRow} {itemID : String}
    (hunk : ∀ i ∈ l, i.id ≠ itemID) (f : ItemRow → ItemRow) :
    l.map (fun r => if r.id = itemID then f r else r) = l := by
  induction l with
  | nil => rfl
  | cons a l ih =>
    simp only [List.mem_cons, forall_eq_or_imp] at hunk
    simp only [List.map_cons, if_neg hunk.1, ih hunk.2]

theorem selectTagIDs_eq_nil {db : DB} {itemID : String}
    (h : ∀ r ∈ db.items_tags, r.item_id ≠ itemID) : selectTagIDs itemID db = [] := by
  unfold selectTagIDs
  rw [itemTagsOf_eq_nil.mpr h]
  rfl

theorem updateItemTxn_ItemsAre {s : List ItemRow} {tx : TxState} (now itemID : String)
    (set : List SetClause) (names : List String) (hunk : ∀ i ∈ s, i.id ≠ itemID)
    (h : ItemsAre s tx) : ItemsAre s (updateItemTxn tx now itemID set names).2 := by
  unfold updateItemTxn
  have k1 : ItemsAre s
      (txExec tx (updateItems now (set ++ [SetClause.updatedAtNow]) itemID)).2 := by
    apply txExec_ItemsAre _ h
    intro db' hq
    simp only [updateItems, Except.ok.injEq] at hq
    rw [← hq]
    exact map_update_of_unknown (by rw [h.1]; exact hunk) _
  rcases h1 : txExec tx (updateItems now (set ++ [SetClause.updatedAtNow]) itemID)
    with ⟨r1, tx1⟩
  rw [h1] at k1
  cases r1 with
  | some e => exact k1
  | none =>
    simp only
    have k2 := txQueryRows_ItemsAre (selectTagIDs itemID) k1
    rcases h2 : txQueryRows tx1 (selectTagIDs itemID) with ⟨r2, tx2⟩
    rw [h2] at k2
    cases r2 with
    | error e => exact k2
    | ok existing =>
      simp only
      have k3 := resolveTagNames_ItemsAre names k2
      rcases h3 : resolveTagNames names tx2 with ⟨r3, tx3⟩
      rw [h3] at k3
      cases r3 with
      | error e => exact k3
      | ok ids =>
        simp only
        have k4 := removeStale_ItemsAre itemID ids existing k3
        rcases h4 : removeStale itemID ids existing tx3 with ⟨r4, tx4⟩
        rw [h4] at k4
        cases r4 with
        | some e => exact k4
        | none => exact addMissing_ItemsAre itemID existing ids k4

/-- For an id that is not in the items table, `updateItem` leaves that table as it was,
whatever it returns and whatever the engine does. -/
theorem updateItem_unknown_items (db : DB) (faults : List Fault) (now itemID : String)
    (title url : Option String) (starred : Option Bool) (names : List String)
    (hunk : ∀ i ∈ db.items, i.id ≠ itemID) :
    (updateItem db faults now itemID title url starred names).2.items = db.items := by
  unfold updateItem
  cases h0 : Begin db faults with
  | error e => rfl
  | ok tx =>
    simp only
    obtain ⟨hdb, hsnap, _⟩ := Begin_ok h0
    have k0 : ItemsAre db.items tx := ⟨by rw [hdb], by simp [Rollback, hsnap]⟩
    split
    · exact k0.2
    · have k := updateItemTxn_ItemsAre now itemID (buildSet title url starred) names hunk k0
      rcases h1 : updateItemTxn tx now itemID (buildSet title url starred) names
        with ⟨r1, tx1⟩
      rw [h1] at k
      cases r1 with
      | some e => exact k.2
      | none =>
        simp only
        unfold Commit
        rcases ht : tick tx1.faults with ⟨f, rest⟩
        cases f with
        | ok =>
          simp only
          cases tx1.snapshot <;> exact k.1
        | fail => exact k.2
        | abort => exact k.2

theorem updateItem_unknown_empty (db : DB) {faults : List Fault} (now itemID : String)
    (title url : Option String) (starred : Option Bool)
    (hf : NoFault faults) (hunk : ∀ i ∈ db.items, i.id ≠ itemID)
    (hnone : ∀ r ∈ db.items_tags, r.item_id ≠ itemID) :
    updateItem db faults now itemID title url starred [] = (none, db) := by
  unfold updateItem
  obtain ⟨tx, h0, hdb, hsnap, hf0⟩ := Begin_noFault db hf
  simp only [h0]
  split
  · simp [Rollback, hsnap]
  · unfold updateItemTxn
    obtain ⟨tx1, h1, hdb1, hs1, hf1⟩ := txExec_noFault tx
      (updateItems now (buildSet title url starred ++ [SetClause.updatedAtNow]) itemID)
      hf0 rfl
    have hdb1' : tx1.db = db := by
      rw [hdb1, hdb]
      simp only [map_update_of_unknown hunk]
    have hsel : selectTagIDs itemID tx1.db = [] := by
      rw [hdb1']; exact selectTagIDs_eq_nil hnone
    obtain ⟨tx2, h2, hdb2, hs2, hf2⟩ := txQueryRows_noFault tx1 (selectTagIDs itemID) hf1
    simp only [h1, h2, hsel, resolveTagNames, removeStale, addMissing]
    rw [Commit_noFault hf2 (by rw [hs2, hs1, hsnap]), hdb2, hdb1']

/-! ## Claims on updateItem, tagItem and createItem -/

/-- Go `updateItem` without `title`, `url` and `starred` never changes the stored state,
and returns nil when `Begin` succeeds. -/
theorem updateItem_without_fields (db : DB) (faults : List Fault) (now itemID : String)
    (names : List String) :
    (updateItem db faults now itemID none none none names).2 = db ∧
    (NoFault faults → (updateItem db faults now itemID none none none names).1 = none) := by
  unfold updateItem
  refine ⟨?_, fun hf => ?_⟩
  · cases h0 : Begin db faults with
    | error e => rfl
    | ok tx =>
      obtain ⟨_, hsnap, _⟩ := Begin_ok h0
      simp [buildSet, Rollback, hsnap]
  · obtain ⟨tx, h0, _⟩ := Begin_noFault db hf
    rw [h0]
    rfl

/-- C1, at an input where the code departs from the specification: on item `X` tagged `a`,
the call that supplies only `tagNames = ["a", "b"]` returns nil and leaves the database as
it was, so `X` still carries only `a`; the same call with a title reconciles the tags to
`a`, `b`. -/
theorem updateItem_tagNames_only_is_noop :
    updateItem singleTagDB [] "t1" "X" none none none ["a", "b"] = (none, singleTagDB) ∧
    (tagsOf singleTagDB "X").map (fun t => t.Name) = ["a"] ∧
    (tagsOf (updateItem singleTagDB [] "t1" "X" (some "x") none none ["a", "b"]).2 "X").map
      (fun t => t.Name) = ["a", "b"] := by
  refine ⟨by decide, by decide, by decide⟩

/-- A successful `updateItem` never deletes a tag row. -/
theorem updateItem_keeps_tags {db db' : DB} {faults : List Fault} {now itemID : String}
    {title url : Option String} {starred : Option Bool} {names : List String}
    (h : updateItem db faults now itemID title url starred names = (none, db')) :
    ∀ t ∈ db.tags, t ∈ db'.tags := by
  intro t ht
  rcases updateItem_ok_cases h with ⟨_, hdb⟩ | ⟨hset, _⟩
  · rw [hdb]; exact ht
  · obtain ⟨_, _, _, _, _, _, ⟨extra, hext, _⟩, _⟩ := updateItem_ok hset h
    rw [hext]
    exact List.mem_append_left _ ht

/-- C2, at an input where the code departs from the specification: from item `X` tagged
`a` only, `updateItem(X, title, tagNames = [])` succeeds and removes the association, but
the tag row `a` stays although no association refers to it, and `getTags` still returns
it; `untagItem` on the same state deletes the tag row. -/
theorem updateItem_leaves_orphan_tag :
    updateItem singleTagDB [] "t1" "X" (some "x") none none [] = (none, orphanDB) ∧
    orphanDB.items_tags = [] ∧
    countItemTags 1 orphanDB = 0 ∧
    getTags orphanDB [] = .ok (some [{ ID := 1, Name := "a" }]) ∧
    (untagItem singleTagDB [] "X" 1).2.tags = [] := by
  refine ⟨by decide, by decide, by decide, by rfl, by decide⟩

/-- C5, at an input where the code departs from the specification: on item `X` tagged `a`,
`updateItem(X, title = "n", tagNames = ["b"])` runs with `Begin`, the `UPDATE` and
`tx.Query` succeeding and the first `rows.Next()` of the loop over the existing tag ids
failing with an error on which the engine rolls the transaction back.  The loop ends as
if there were no rows, the following statements are committed one by one, and `Commit`
fails: the call returns an error, yet tag `b` and the association `(X, 2)` are stored,
beside the old association `(X, 1)`.  The same engine failure inside `tagItem`, where the
query is read by `QueryRow(...).Scan`, is returned at once and nothing is stored. -/
theorem updateItem_error_after_engine_rollback :
    updateItem singleTagDB [.ok, .ok, .ok, .abort] "t1" "X" (some "n") none none ["b"] =
      (some .noTransaction, halfAppliedDB) ∧
    halfAppliedDB ≠ singleTagDB ∧
    halfAppliedDB.tags = singleTagDB.tags ++ [⟨2, "b"⟩] ∧
    halfAppliedDB.items_tags = singleTagDB.items_tags ++ [⟨"X", 2⟩] ∧
    tagItem singleTagDB [.ok, .abort] "X" "b" = (some .storage, singleTagDB) := by
  refine ⟨by decide, by decide, by decide, by decide, by decide⟩

/-- C6, counterexample to the statement of the specification: `Z` is not an item id, yet
`updateItem(Z, title, ["c"])` returns nil and creates tag `c` and the association
`(Z, 3)`, and `updateItem(Z, title, [])` returns nil as well. -/
theorem updateItem_unknown_id_succeeds :
    (∀ i ∈ twoItemsDB.items, i.id ≠ "Z") ∧
    (updateItem twoItemsDB [] "t9" "Z" (some "z") none none ["c"]).1 = none ∧
    { id := 3, name := "c" } ∈
      (updateItem twoItemsDB [] "t9" "Z" (some "z") none none ["c"]).2.tags ∧
    { item_id := "Z", tag_id := 3 } ∈
      (updateItem twoItemsDB [] "t9" "Z" (some "z") none none ["c"]).2.items_tags ∧
    updateItem twoItemsDB [] "t9" "Z" (some "z") none none [] = (none, twoItemsDB) := by
  refine ⟨by decide, by decide, by decide, by decide, by decide⟩

/-- C6, as the code implements it: for an id that is not in `items`, `updateItem` never
changes the items table, whatever it returns; if moreover no association row refers to
the id and the engine reports no failure, then with an empty `tagNames` it returns nil and
leaves the database unchanged. -/
theorem updateItem_unknown_id (db : DB) (faults : List Fault) (now itemID : String)
    (title url : Option String) (starred : Option Bool) (names : List String)
    (hunk : ∀ i ∈ db.items, i.id ≠ itemID) :
    (updateItem db faults now itemID title url starred names).2.items = db.items ∧
    ((∀ r ∈ db.items_tags, r.item_id ≠ itemID) → NoFault faults →
      updateItem db faults now itemID title url starred [] = (none, db)) :=
  ⟨updateItem_unknown_items db faults now itemID title url starred names hunk,
    fun hnone hf => updateItem_unknown_empty db now itemID title url starred hf hunk hnone⟩

/-- C6, as the code implements it, at a concrete state: for the unknown id `Z` the call
with `["c"]` leaves the items table as it was, and the call with no tag names returns nil
and changes nothing. -/
theorem updateItem_unknown_id_witness :
    (∀ i ∈ twoItemsDB.items, i.id ≠ "Z") ∧
    (updateItem twoItemsDB [] "t9" "Z" (some "z") none none ["c"]).2.items =
      twoItemsDB.items ∧
    updateItem twoItemsDB [] "t9" "Z" (some "z") none none [] = (none, twoItemsDB) :=
  ⟨by decide,
   (updateItem_unknown_id twoItemsDB [] "t9" "Z" (some "z") none none ["c"] (by decide)).1,
   (updateItem_unknown_id twoItemsDB [] "t9" "Z" (some "z") none none ["c"] (by decide)).2
     (by decide) (by decide)⟩

/-- C7, counterexample to the statement of the specification: `tagItem(X, "b")` succeeds
and changes the tag set of `X`, and `untagItem(X, 1)` succeeds and changes it too, but the
item row, `updated_at` included, is what it was. -/
theorem tag_only_changes_keep_updated_at :
    (tagItem singleTagDB [] "X" "b").1 = none ∧
    (tagItem singleTagDB [] "X" "b").2.items_tags = [⟨"X", 1⟩, ⟨"X", 2⟩] ∧
    (tagItem singleTagDB [] "X" "b").2.items = [⟨"X", "x", "http://x", false, "t0", "t0"⟩] ∧
    (untagItem singleTagDB [] "X" 1).1 = none ∧
    (untagItem singleTagDB [] "X" 1).2.items_tags = [] ∧
    (untagItem singleTagDB [] "X" 1).2.items = [⟨"X", "x", "http://x", false, "t0", "t0"⟩] := by
  refine ⟨by decide, by decide, by decide, by decide, by decide, by decide⟩

/-- C7, as the code implements it: a successful `updateItem` that supplies at least one of
`title`, `url`, `starred` rewrites exactly the rows of that id, setting the supplied
fields and `updated_at` to the current time and keeping `id` and `created_at`; a
successful `tagItem` or `untagItem` leaves the items table, `updated_at` included,
unchanged. -/
theorem updated_at_refresh :
    (∀ db faults now itemID title url starred names db',
      buildSet title url starred ≠ [] →
      updateItem db faults now itemID title url starred names = (none, db') →
      db'.items = db.items.map
        (fun r => if r.id = itemID then updatedRow now title url starred r else r) ∧
      (∀ r ∈ db'.items, r.id = itemID → r.updated_at = now) ∧
      db'.items.map (fun r => (r.id, r.created_at)) =
        db.items.map (fun r => (r.id, r.created_at))) ∧
    (∀ db faults itemID tagName db',
      tagItem db faults itemID tagName = (none, db') → db'.items = db.items) ∧
    (∀ db faults itemID tagID db',
      untagItem db faults itemID tagID = (none, db') → db'.items = db.items) := by
  refine ⟨?_, ?_, ?_⟩
  · intro db faults now itemID title url starred names db' hset h
    obtain ⟨_, _, _, _, _, hitems, _⟩ := updateItem_ok hset h
    refine ⟨hitems, ?_, ?_⟩
    · intro r hr hid
      rw [hitems, List.mem_map] at hr
      obtain ⟨r0, _, rfl⟩ := hr
      split
      · rfl
      · rename_i hne
        rw [if_neg hne] at hid
        exact absurd hid hne
    · rw [hitems, List.map_map]
      apply List.map_congr_left
      intro r _
      simp only [Function.comp]
      split <;> rfl
  · intro db faults itemID tagName db' h
    exact (tagItem_ok h).1
  · intro db faults itemID tagID db' h
    rw [untagItem_ok h]
    rfl

/-- C7, as the code implements it, at concrete runs on item `X` created at `t0`. -/
theorem updated_at_refresh_witness :
    (updateItem singleTagDB [] "t1" "X" none none (some true) ["a"]).2.items =
      [⟨"X", "x", "http://x", true, "t0", "t1"⟩] ∧
    (tagItem singleTagDB [] "X" "b").2.items = singleTagDB.items ∧
    (untagItem singleTagDB [] "X" 1).2.items = singleTagDB.items :=
  ⟨(updated_at_refresh.1 singleTagDB [] "t1" "X" none none (some true) ["a"]
      (updateItem singleTagDB [] "t1" "X" none none (some true) ["a"]).2
      (by decide) (by decide)).1.trans (by decide),
   updated_at_refresh.2.1 singleTagDB [] "X" "b" (tagItem singleTagDB [] "X" "b").2
      (by decide),
   updated_at_refresh.2.2 singleTagDB [] "X" 1 (untagItem singleTagDB [] "X" 1).2
      (by decide)⟩

/-- C8, counterexample to the statement of the specification: with the repeated name `b`,
`createItem` and `updateItem` do not succeed: the second insertion of the same association
violates the primary key and the transaction is rolled back. -/
theorem duplicate_names_fail :
    createItem singleTagDB [] "t1" "Z" "z" "http://z" ["b", "b"] =
      (some .primaryKey, singleTagDB) ∧
    updateItem singleTagDB [] "t1" "X" (some "x") none none ["b", "b"] =
      (some .primaryKey, singleTagDB) := by
  refine ⟨by decide, by decide⟩

/-- C8, as the code implements it: a list with a repeated name is not deduplicated.
`createItem` returns an error on it and leaves the stored state unchanged.  `updateItem`
with at least one optional field returns an error when some name occurs twice and no tag
of that name is associated with the item yet (tag ids being unique and the item's
associations referring to tag rows), and leaves the stored state unchanged when the engine
never rolls the transaction back on its own.  When `updateItem` with a field succeeds, on
any list, tag names stay unique and the association table has no duplicate row, and when
the engine reported no failure the item is associated with exactly the tags named. -/
theorem duplicate_names_rejected :
    (∀ db faults now newID title url names, ¬ List.Nodup names →
      (createItem db faults now newID title url names).1 ≠ none ∧
      (createItem db faults now newID title url names).2 = db) ∧
    (∀ db faults now itemID title url starred names n,
      buildSet title url starred ≠ [] → TagIDsUnique db → 2 ≤ List.count n names →
      (∀ r ∈ db.items_tags, r.item_id = itemID → ∃ t ∈ db.tags, t.id = r.tag_id) →
      (∀ t ∈ db.tags, t.name = n →
        ({ item_id := itemID, tag_id := t.id } : ItemTagRow) ∉ db.items_tags) →
      (updateItem db faults now itemID title url starred names).1 ≠ none ∧
      (Fault.abort ∉ faults →
        (updateItem db faults now itemID title url starred names).2 = db)) ∧
    (∀ db faults now itemID title url starred names db',
      buildSet title url starred ≠ [] →
      TagNamesUnique db → TagIDsUnique db → db.items_tags.Nodup →
      updateItem db faults now itemID title url starred names = (none, db') →
      TagNamesUnique db' ∧ db'.items_tags.Nodup ∧
      (NoFault faults →
        ∀ tagID, ({ item_id := itemID, tag_id := tagID } : ItemTagRow) ∈ db'.items_tags ↔
          ∃ n ∈ names, ({ id := tagID, name := n } : TagRow) ∈ db'.tags)) := by
  refine ⟨?_, ?_, ?_⟩
  · intro db faults now newID title url names hdup
    have herr := createItem_duplicate_fails db faults now newID title url hdup
    exact ⟨herr, createItem_error_unchanged db faults now newID title url names herr⟩
  · intro db faults now itemID title url starred names n hset hui hdup href hfree
    have herr := updateItem_duplicate_fails db faults now itemID title url starred hset hui
      hdup href hfree
    exact ⟨herr, fun hna =>
      updateItem_error_unchanged db faults now itemID title url starred names hna herr⟩
  · intro db faults now itemID title url starred names db' hset hun hui hnd h
    obtain ⟨h1, _, h3, h4, _⟩ :=
      (updateItem_converges db faults now itemID title url starred names hset hun hui hnd).2
        db' h
    exact ⟨h4, h3, fun hf => (h1 hf).1⟩

/-- C8, as the code implements it, at concrete runs: `["b", "b"]` is rejected by
`createItem` and by `updateItem`; `["a", "a"]` on item `X`, which already carries `a`,
succeeds and leaves the single association row. -/
theorem duplicate_names_rejected_witness :
    ((createItem singleTagDB [] "t1" "Z" "z" "http://z" ["b", "b"]).1 ≠ none ∧
      (createItem singleTagDB [] "t1" "Z" "z" "http://z" ["b", "b"]).2 = singleTagDB) ∧
    ((updateItem singleTagDB [] "t1" "X" (some "x") none none ["b", "b"]).1 ≠ none ∧
      (updateItem singleTagDB [] "t1" "X" (some "x") none none ["b", "b"]).2 = singleTagDB) ∧
    (updateItem singleTagDB [] "t1" "X" (some "x") none none ["a", "a"]).2.items_tags.Nodup :=
  ⟨duplicate_names_rejected.1 singleTagDB [] "t1" "Z" "z" "http://z" ["b", "b"] (by decide),
   ⟨(duplicate_names_rejected.2.1 singleTagDB [] "t1" "X" (some "x") none none ["b", "b"] "b"
     (by decide) (by decide) (by decide) (by decide) (by decide)).1,
    (duplicate_names_rejected.2.1 singleTagDB [] "t1" "X" (some "x") none none ["b", "b"] "b"
     (by decide) (by decide) (by decide) (by decide) (by decide)).2 (by decide)⟩,
   (duplicate_names_rejected.2.2 singleTagDB [] "t1" "X" (some "x") none none ["a", "a"]
     (updateItem singleTagDB [] "t1" "X" (some "x") none none ["a", "a"]).2
     (by decide) (by decide) (by decide) (by decide) (by decide)).2.1⟩

/-! ## getItems -/

/-- The loop body of `getItems`, by the tag the row carries. -/
theorem scanItemsRow_eq (m : ItemsMap) (row : JoinRow) :
    scanItemsRow m row =
      match rowTag row with
      | some t => (ensureEntry m row).map (addTagTo row.item.id t)
      | none => ensureEntry m row := by
  unfold scanItemsRow rowTag ensureEntry
  cases row.tag_id <;> cases row.tag_name <;> rfl

theorem addTagTo_fst (k : String) (t : Tag) (e : String × Item) :
    (addTagTo k t e).1 = e.1 := by
  unfold addTagTo
  split <;> rfl

/-- The insertion step keeps the invariant of the row loop, the tags still being those of
the earlier rows. -/
theorem ensureEntry_spec {rows : List JoinRow} {m : ItemsMap} (row : JoinRow)
    (hnd : (m.map (fun e => e.1)).Nodup)
    (hkeys : ∀ k, k ∈ m.map (fun e => e.1) ↔ ∃ r ∈ rows, r.item.id = k)
    (hent : ∀ e ∈ m, ∃ r, rows.find? (fun r => decide (r.item.id = e.1)) = some r ∧
      e.2 = itemOf r.item (rowTagsOf rows e.1)) :
    ((ensureEntry m row).map (fun e => e.1)).Nodup ∧
    (∀ k, k ∈ (ensureEntry m row).map (fun e => e.1) ↔ ∃ r ∈ rows ++ [row], r.item.id = k) ∧
    ∀ e ∈ ensureEntry m row,
      ∃ r, (rows ++ [row]).find? (fun r => decide (r.item.id = e.1)) = some r ∧
        e.2 = itemOf r.item (rowTagsOf rows e.1) := by
  have hex : (∃ e ∈ m, e.1 = row.item.id) ↔ ∃ r ∈ rows, r.item.id = row.item.id := by
    rw [← hkeys]
    simp only [List.mem_map]
  unfold ensureEntry
  by_cases hin : ∃ e ∈ m, e.1 = row.item.id
  · rw [if_pos hin]
    refine ⟨hnd, ?_, ?_⟩
    · intro k
      rw [hkeys]
      constructor
      · rintro ⟨r, hr, hid⟩
        exact ⟨r, List.mem_append_left _ hr, hid⟩
      · rintro ⟨r, hr, hid⟩
        rcases List.mem_append.mp hr with hr | hr
        · exact ⟨r, hr, hid⟩
        · simp only [List.mem_singleton] at hr
          subst hr
          rw [← hid]
          exact hex.mp hin
    · intro e he
      obtain ⟨r, hf, heq⟩ := hent e he
      refine ⟨r, ?_, heq⟩
      rw [List.find?_append, hf]
      rfl
  · rw [if_neg hin]
    have hnot : ∀ r ∈ rows, r.item.id ≠ row.item.id := by
      intro r hr hid
      exact hin (hex.mpr ⟨r, hr, hid⟩)
    refine ⟨?_, ?_, ?_⟩
    · rw [List.map_append, List.nodup_append]
      refine ⟨hnd, by simp, ?_⟩
      intro k hk1 hk2
      simp only [List.map_cons, List.map_nil, List.mem_singleton] at hk2
      subst hk2
      obtain ⟨r, hr, hid⟩ := (hkeys _).mp hk1
      exact hnot r hr hid
    · intro k
      simp only [List.map_append, List.map_cons, List.map_nil, List.mem_append,
        List.mem_singleton, hkeys]
      constructor
      · rintro (⟨r, hr, hid⟩ | rfl)
        · exact ⟨r, Or.inl hr, hid⟩
        · exact ⟨row, Or.inr rfl, rfl⟩
      · rintro ⟨r, hr | hr, hid⟩
        · exact Or.inl ⟨r, hr, hid⟩
        · right; rw [← hid, hr]
    · intro e he
      rcases List.mem_append.mp he with he | he
      · obtain ⟨r, hf, heq⟩ := hent e he
        refine ⟨r, ?_, heq⟩
        rw [List.find?_append, hf]
        rfl
      · simp only [List.mem_singleton] at he
        subst he
        refine ⟨row, ?_, ?_⟩
        · rw [List.find?_append]
          have : rows.find? (fun r => decide (r.item.id = row.item.id)) = none := by
            rw [List.find?_eq_none]
            intro r hr
            simpa using hnot r hr
          simp [this]
        · have : rowTagsOf rows row.item.id = [] := by
            unfold rowTagsOf
            rw [List.filter_eq_nil_iff.mpr]
            · rfl
            · intro r hr
              simpa using hnot r hr
          simp only [this]
          rfl

theorem rowTagsOf_append_of_ne (rows : List JoinRow) (row : JoinRow) {k : String}
    (h : row.item.id ≠ k) : rowTagsOf (rows ++ [row]) k = rowTagsOf rows k := by
  unfold rowTagsOf
  rw [List.filter_append]
  simp [h]

theorem rowTagsOf_append_self (rows : List JoinRow) (row : JoinRow) :
    rowTagsOf (rows ++ [row]) row.item.id =
      rowTagsOf rows row.item.id ++ (rowTag row).toList := by
  unfold rowTagsOf
  rw [List.filter_append, List.filterMap_append]
  cases h : rowTag row <;> simp [h]

/-- The map that the row loop of `getItems` builds: one entry per item id of the rows,
holding the scalar fields of the first row of that id and the tags of all its rows in row
order. -/
theorem foldl_scanItemsRow_spec (rows : List JoinRow) :
    ((rows.foldl scanItemsRow []).map (fun e => e.1)).Nodup ∧
    (∀ k, k ∈ (rows.foldl scanItemsRow []).map (fun e => e.1) ↔
      ∃ row ∈ rows, row.item.id = k) ∧
    ∀ e ∈ rows.foldl scanItemsRow [],
      ∃ row, rows.find? (fun r => decide (r.item.id = e.1)) = some row ∧
        e.2 = itemOf row.item (rowTagsOf rows e.1) := by
  induction rows using List.reverseRecOn with
  | nil => simp
  | append_singleton rows row ih =>
    obtain ⟨hnd, hkeys, hent⟩ := ih
    rw [List.foldl_append, List.foldl_cons, List.foldl_nil]
    generalize rows.foldl scanItemsRow [] = m at hnd hkeys hent
    obtain ⟨hnd1, hkeys1, hent1⟩ := ensureEntry_spec row hnd hkeys hent
    rw [scanItemsRow_eq]
    generalize ensureEntry m row = m1 at hnd1 hkeys1 hent1
    cases ht : rowTag row with
    | none =>
      simp only
      refine ⟨hnd1, hkeys1, ?_⟩
      intro e he
      obtain ⟨r, hf, heq⟩ := hent1 e he
      refine ⟨r, hf, ?_⟩
      rw [heq]
      by_cases hk : row.item.id = e.1
      · rw [← hk, rowTagsOf_append_self, ht]
        simp
      · rw [rowTagsOf_append_of_ne rows row hk]
    | some t =>
      simp only
      have hkeysmap : (m1.map (addTagTo row.item.id t)).map (fun e => e.1) =
          m1.map (fun e => e.1) := by
        rw [List.map_map]
        apply List.map_congr_left
        intro e _
        exact addTagTo_fst _ _ _
      refine ⟨by rw [hkeysmap]; exact hnd1, by rw [hkeysmap]; exact hkeys1, ?_⟩
      intro e' he'
      rw [List.mem_map] at he'
      obtain ⟨e, he, rfl⟩ := he'
      obtain ⟨r, hf, heq⟩ := hent1 e he
      rw [addTagTo_fst]
      refine ⟨r, hf, ?_⟩
      unfold addTagTo
      by_cases hk : e.1 = row.item.id
      · rw [if_pos hk]
        simp only
        rw [hk, rowTagsOf_append_self, ht, heq, hk]
        simp [itemOf, sliceAppend]
      · rw [if_neg hk]
        rw [heq, rowTagsOf_append_of_ne rows row (fun h => hk h.symm)]

theorem foldl_sliceAppend (l : List (String × Item)) (acc : List Item) :
    l.foldl (fun items e => sliceAppend items e.2) (some acc) =
      some (acc ++ l.map (fun e => e.2)) := by
  induction l generalizing acc with
  | nil => simp
  | cons a l ih =>
    rw [List.foldl_cons]
    have : sliceAppend (some acc) a.2 = some (acc ++ [a.2]) := rfl
    rw [this, ih]
    simp

/-- What `getItems` guarantees whatever the iteration order of the map (a permutation of
its entries): the result holds exactly one aggregate per item id of the rows, each with
the scalar fields of the first row of the id and the non-null tags of its rows in row
order; the order of the aggregates is the iteration order of the map. -/
theorem foldItems_spec (rangeOrder : ItemsMap → ItemsMap)
    (hperm : ∀ m, (rangeOrder m).Perm m) (rows : List JoinRow) :
    (rows = [] → foldItems rangeOrder rows = none) ∧
    (rows ≠ [] → ∃ items, foldItems rangeOrder rows = some items ∧
      (items.map (fun it => it.ID)).Nodup ∧
      (∀ k, k ∈ items.map (fun it => it.ID) ↔ ∃ row ∈ rows, row.item.id = k) ∧
      ∀ it ∈ items, ∃ row, rows.find? (fun r => decide (r.item.id = it.ID)) = some row ∧
        it = itemOf row.item (rowTagsOf rows it.ID)) := by
  obtain ⟨hnd, hkeys, hent⟩ := foldl_scanItemsRow_spec rows
  unfold foldItems
  have hp := hperm (rows.foldl scanItemsRow [])
  generalize rows.foldl scanItemsRow [] = m at hnd hkeys hent hp
  generalize rangeOrder m = m' at hp
  have hid : ∀ e ∈ m', e.2.ID = e.1 := by
    intro e he
    obtain ⟨row, hf, heq⟩ := hent e (hp.mem_iff.mp he)
    have := List.find?_some hf
    simp only [decide_eq_true_eq] at this
    rw [heq]
    exact this
  have hids : (m'.map (fun e => e.2)).map (fun it => it.ID) = m'.map (fun e => e.1) := by
    rw [List.map_map]
    apply List.map_congr_left
    intro e he
    exact hid e he
  refine ⟨?_, ?_⟩
  · intro hnil
    subst hnil
    have : m = [] := by
      cases m with
      | nil => rfl
      | cons e _ =>
        obtain ⟨_, hr, _⟩ := (hkeys e.1).mp (by simp)
        simp at hr
    rw [this] at hp
    rw [List.Perm.eq_nil hp]
    rfl
  · intro hne
    cases hm' : m' with
    | nil =>
      exfalso
      rw [hm'] at hp
      have hmnil : m = [] := (List.Perm.nil_eq hp.symm.symm).symm ▸ rfl
      obtain ⟨row, hrow⟩ := List.exists_mem_of_ne_nil rows hne
      have := (hkeys row.item.id).mpr ⟨row, hrow, rfl⟩
      rw [hmnil] at this
      simp at this
    | cons e rest =>
      rw [List.foldl_cons]
      have hfirst : sliceAppend (none : Option (List Item)) e.2 = some [e.2] := rfl
      rw [hfirst, foldl_sliceAppend]
      refine ⟨_, rfl, ?_, ?_, ?_⟩
      · have : ([e.2] ++ rest.map (fun e => e.2)) = m'.map (fun e => e.2) := by
          rw [hm']; rfl
        rw [this, hids]
        exact (hp.map _).nodup_iff.mpr hnd
      · intro k
        have : ([e.2] ++ rest.map (fun e => e.2)) = m'.map (fun e => e.2) := by
          rw [hm']; rfl
        rw [this, hids, (hp.map _).mem_iff]
        exact hkeys k
      · intro it hit
        have : ([e.2] ++ rest.map (fun e => e.2)) = m'.map (fun e => e.2) := by
          rw [hm']; rfl
        rw [this, List.mem_map] at hit
        obtain ⟨e0, he0, rfl⟩ := hit
        obtain ⟨row, hf, heq⟩ := hent e0 (hp.mem_iff.mp he0)
        rw [hid e0 he0]
        exact ⟨row, hf, heq⟩

/-- C10, at an input where the code departs from the specification: the rows come ordered
by item id (`X` before `Y`), but the items are collected in a Go map and returned in its
iteration order; when the runtime iterates the two entries in the other order, `getItems`
returns `Y` before `X`, and two calls on the same state return different sequences. -/
theorem getItems_order_follows_map_iteration :
    (queryItems twoItemsDB).map (fun row => row.item.id) = ["X", "X", "Y"] ∧
    getItems twoItemsDB [] id =
      .ok (some [⟨"X", "x", "http://x", false, "t0", "t0", some [⟨1, "a"⟩, ⟨2, "b"⟩]⟩,
                 ⟨"Y", "y", "http://y", true, "t1", "t2", some []⟩]) ∧
    getItems twoItemsDB [] List.reverse =
      .ok (some [⟨"Y", "y", "http://y", true, "t1", "t2", some []⟩,
                 ⟨"X", "x", "http://x", false, "t0", "t0", some [⟨1, "a"⟩, ⟨2, "b"⟩]⟩]) ∧
    getItems twoItemsDB [] id ≠ getItems twoItemsDB [] List.reverse := by
  refine ⟨by decide, by rfl, by rfl, ?_⟩
  intro h
  have h1 : getItems twoItemsDB [] id =
      .ok (some [⟨"X", "x", "http://x", false, "t0", "t0", some [⟨1, "a"⟩, ⟨2, "b"⟩]⟩,
                 ⟨"Y", "y", "http://y", true, "t1", "t2", some []⟩]) := by rfl
  have h2 : getItems twoItemsDB [] List.reverse =
      .ok (some [⟨"Y", "y", "http://y", true, "t1", "t2", some []⟩,
                 ⟨"X", "x", "http://x", false, "t0", "t0", some [⟨1, "a"⟩, ⟨2, "b"⟩]⟩]) := by rfl
  rw [h1, h2] at h
  simp at h

end ReadingList
